import Mathlib

/-!
# dynamo-client: expression builders and the pagination driver

A shallow embedding of `src/dynamodb-client.go` and of `BuildValueSk` from `src/model.go`.

* Go strings are `String`; the `strings` helpers used by the source are defined on the
  character lists so that they evaluate in the kernel.
* A Go `map[string]V` is an association list `GoMap V`; `m[k] = v` is `GoMap.assign`
  (overwrite in place, or append), `for k, v := range m` visits the list in its order, so a
  visiting order of a map is a permutation of the list.
* A nil pointer dereference, a failed type assertion and an index out of range are runtime
  panics; they are results of their own, distinct from a returned `err`.
-/

set_option autoImplicit false

namespace DynamoClient

/-! ## Go strings -/

namespace strings

/-- Segments of a character list cut at every occurrence of `sep`. -/
def splitChars (sep : Char) : List Char → List (List Char)
  | [] => [[]]
  | c :: cs =>
    if c = sep then [] :: splitChars sep cs
    else
      match splitChars sep cs with
      | [] => [[c]]
      | seg :: segs => (c :: seg) :: segs

/-- Go `strings.Split(s, sep)` for a one-character separator. -/
def Split (s : String) (sep : Char) : List String :=
  (splitChars sep s.data).map String.mk

/-- Concatenation of segments with `sep` between consecutive ones. -/
def joinChars (sep : List Char) : List (List Char) → List Char
  | [] => []
  | [seg] => seg
  | seg :: next :: segs => seg ++ sep ++ joinChars sep (next :: segs)

/-- Go `strings.Join(elems, sep)`. -/
def Join (elems : List String) (sep : String) : String :=
  String.mk (joinChars sep.data (elems.map String.data))

/-- Go `strings.HasSuffix(s, suffix)`. -/
def HasSuffix (s suffix : String) : Bool :=
  suffix.data.isSuffixOf s.data

/-- Position of the first occurrence of `sub`, or `-1`. -/
def indexChars (sub : List Char) : List Char → Int
  | [] => if sub = [] then 0 else -1
  | c :: cs =>
    if sub.isPrefixOf (c :: cs) then 0
    else
      let i := indexChars sub cs
      if i < 0 then -1 else i + 1

/-- Go `strings.Index(s, substr)`. -/
def Index (s substr : String) : Int :=
  indexChars substr.data s.data

/-- Go `strings.Contains(s, substr)` for a one-character `substr`. -/
def Contains (s : String) (c : Char) : Bool :=
  s.data.contains c

/-- Go `strings.ReplaceAll(s, old, "")` for a one-character `old`. -/
def RemoveAll (s : String) (old : Char) : String :=
  String.mk (s.data.filter (fun c => c != old))

/-- Go `strings.ReplaceAll(s, old, new)` for one-character `old` and `new`. -/
def ReplaceAll (s : String) (old new : Char) : String :=
  String.mk (s.data.map (fun c => if c = old then new else c))

end strings

/-! ## Go maps -/

/-- A Go `map[string]V`, as the list of its entries. -/
abbrev GoMap (V : Type) := List (String × V)

namespace GoMap

variable {V : Type}

/-- The assignment `m[k] = v`. -/
def assign : GoMap V → String → V → GoMap V
  | [], k, v => [(k, v)]
  | (k', v') :: rest, k, v =>
    if k' = k then (k, v) :: rest else (k', v') :: assign rest k v

/-- The read `m[k]`; `none` when `k` is absent. -/
def lookup : GoMap V → String → Option V
  | [], _ => none
  | (k', v') :: rest, k => if k' = k then some v' else lookup rest k

/-- The keys of the map. -/
def keys (m : GoMap V) : List String := m.map Prod.fst

end GoMap

/-! ## Data model -/

/-- The wire attribute values the builders construct (`types.AttributeValueMemberS`,
`types.AttributeValueMemberBOOL`). -/
inductive AttributeValue where
  | S (Value : String)
  | BOOL (Value : Bool)
  deriving DecidableEq, Repr

/-- A Go `interface{}` value as the builders inspect it. -/
inductive Value where
  | null
  | bool (b : Bool)
  | str (s : String)
  | int (n : Int)
  | time (t : Nat)
  | map (m : List (String × Value))

/-- The test `reflect.ValueOf(v).Kind() == reflect.Map`. -/
def Value.isMap : Value → Bool
  | .map _ => true
  | _ => false

/-- The type assertion `v.(string)`; `none` is the panic of a failed assertion. -/
def Value.asString : Option Value → Option String
  | some (.str s) => some s
  | _ => none

/-- The type assertion `v.(map[string]interface{})`. -/
def Value.asMap : Value → Option (GoMap Value)
  | .map m => some m
  | _ => none

/-- `reflect.ValueOf(v).Len()`; `none` is the panic on a value that has no length. -/
def Value.reflectLen : Value → Option Nat
  | .map m => some m.length
  | .str s => some s.utf8ByteSize
  | _ => none

/-- The struct `Key`; a nil pointer field is `none`. -/
structure Key where
  PK : Option String
  SK : Option String
  IndexName : Option String
  SortKeyType : Option String

def KeySortKeyTypeEqualTo : String := "="
def KeySortKeyTypeLessThanOrEqualTo : String := "<="
def KeySortKeyTypeLessThan : String := "<"
def KeySortKeyTypeGreaterThanOrEqualTo : String := ">="
def KeySortKeyTypeGreaterThan : String := ">"
def KeySortKeyTypeBetween : String := "between"
def KeySortKeyTypeBeginsWith : String := "begins_with"

/-- How a stretch of code ends: it runs through, returns with `err` set, or panics. Each case
carries the local state at that point. -/
inductive Exit (σ : Type) where
  | ok (s : σ)
  | error (err : String) (s : σ)
  | panic (s : σ)

/-! ## Key-condition builder (`GetItemList`, lines 124-187) -/

/-- The locals of `GetItemList` that the key-condition code writes. -/
structure KeyCondition where
  expressionAttributeValues : GoMap AttributeValue
  keyConditionExpression : String
  expressionAttributeNames : GoMap String
  deriving DecidableEq, Repr

/-- The sort-key operator in force: the explicit one, or the one inferred from the sort-key
value (lines 131-137). -/
def inferSortKeyType (sk : String) (sortKeyType : Option String) : String :=
  match sortKeyType with
  | some t => t
  | none =>
    if strings.HasSuffix sk "#" then KeySortKeyTypeBeginsWith else KeySortKeyTypeEqualTo

/-- The bounds of a `between` sort key (lines 148-157); `none` is the index-out-of-range panic
of `listSection[1]`. -/
def betweenBounds (sk : String) : Option (String × String) :=
  if strings.Contains sk '#' then
    let listPrefix := strings.Split sk '#'
    let pfx := strings.Join listPrefix.dropLast "#"
    match listPrefix.getLast? with
    | none => none
    | some last =>
      let listSection := strings.Split last '/'
      match listSection[0]?, listSection[1]? with
      | some s0, some s1 => some (pfx ++ "#" ++ s0, pfx ++ "#" ++ s1)
      | _, _ => none
  else some ("", "")

/-- First switch on the sort-key operator (lines 139-164): the value placeholders. -/
def sortKeyValues (sk sortKeyType : String) (values : GoMap AttributeValue) :
    Exit (GoMap AttributeValue) :=
  if sortKeyType = KeySortKeyTypeEqualTo ∨ sortKeyType = KeySortKeyTypeLessThanOrEqualTo ∨
      sortKeyType = KeySortKeyTypeLessThan ∨ sortKeyType = KeySortKeyTypeGreaterThanOrEqualTo ∨
      sortKeyType = KeySortKeyTypeGreaterThan ∨ sortKeyType = KeySortKeyTypeBeginsWith then
    .ok (GoMap.assign values ":gsisk" (.S sk))
  else if sortKeyType = KeySortKeyTypeBetween then
    match betweenBounds sk with
    | none => .panic values
    | some (bBegin, bEnd) =>
      .ok (GoMap.assign (GoMap.assign values ":gsiskBegin" (.S bBegin)) ":gsiskEnd" (.S bEnd))
  else .error ("not supported sort key type (" ++ sortKeyType ++ ")") values

/-- Second switch on the sort-key operator (lines 166-180): the comparison text. -/
def sortKeyConditionExpression (indexName sortKeyType : String) : Except String String :=
  if sortKeyType = KeySortKeyTypeEqualTo ∨ sortKeyType = KeySortKeyTypeLessThanOrEqualTo ∨
      sortKeyType = KeySortKeyTypeLessThan ∨ sortKeyType = KeySortKeyTypeGreaterThanOrEqualTo ∨
      sortKeyType = KeySortKeyTypeGreaterThan then
    .ok ("#" ++ indexName ++ "SK " ++ sortKeyType ++ " :gsisk")
  else if sortKeyType = KeySortKeyTypeBetween then
    .ok ("#" ++ indexName ++ "SK " ++ sortKeyType ++ " :gsiskBegin and :gsiskEnd")
  else if sortKeyType = KeySortKeyTypeBeginsWith then
    .ok (sortKeyType ++ "(#" ++ indexName ++ "SK, :gsisk)")
  else .error ("not supported sort key type (" ++ sortKeyType ++ ")")

/-- Lines 124-187 of `GetItemList`: the value table, the key-condition expression and the name
table built from the key. `*key.PK` and `*key.IndexName` are dereferenced without a nil check. -/
def keyCondition (key : Key) : Exit KeyCondition :=
  match key.PK with
  | none => .panic ⟨[], "", []⟩
  | some pk =>
    let values := GoMap.assign [] ":gsipk" (AttributeValue.S pk)
    match key.IndexName with
    | none => .panic ⟨values, "", []⟩
    | some indexName =>
      let expr := "#" ++ indexName ++ "PK = :gsipk"
      let names := GoMap.assign (GoMap.assign [] ("#" ++ indexName ++ "PK") (indexName ++ "PK"))
        ("#" ++ indexName ++ "SK") (indexName ++ "SK")
      match key.SK with
      | none => .ok ⟨values, expr, names⟩
      | some sk =>
        let sortKeyType := inferSortKeyType sk key.SortKeyType
        match sortKeyValues sk sortKeyType values with
        | .panic values => .panic ⟨values, expr, []⟩
        | .error err values => .error err ⟨values, expr, []⟩
        | .ok values =>
          match sortKeyConditionExpression indexName sortKeyType with
          | .error err => .error err ⟨values, expr, []⟩
          | .ok sortExpr => .ok ⟨values, expr ++ " And " ++ sortExpr, names⟩

/-! ## Update-expression builder -/

/-- The three tables `buildExpressionAttributeNamesAndValue` writes through its pointer
arguments. `expressionNamesAndValues` maps an update target to its right-hand side. -/
structure Tables where
  expressionAttributeNames : GoMap String
  expressionAttributeValues : GoMap Value
  expressionNamesAndValues : GoMap String

/-- The error of line 476 (and of line 545). -/
def unsupportedFunctionName (k : String) : String :=
  "unsupported function name (" ++ k ++ ")"

/-- The error of line 480. -/
def unsupportedFunctionFormat (k : String) : String :=
  "unsupported function format (" ++ k ++ ")"

/-- Go `buildFunctionForExpressionAttributeNamesAndValue` (lines 536-549). -/
def buildFunctionForExpressionAttributeNamesAndValue (functionName key : String) :
    Except String String :=
  if functionName = "list_append" then .ok ("list_append(" ++ key ++ ", :" ++ key ++ ")")
  else if functionName = "increase" then .ok ("if_not_exists(" ++ key ++ ", :_Zero) + :" ++ key)
  else if functionName = "decrease" then .ok ("if_not_exists(" ++ key ++ ", :_Zero) - :" ++ key)
  else .error (unsupportedFunctionName functionName)

/-- Lines 464-483 for a key that starts with `Fn:`: the key is split on `:`; with three
segments and a known function name the field name replaces `k` (and `:_Zero` is registered for
increase and decrease). Returns the new `k`, `keysFunction[1]` and the tables. -/
def functionDirective (k : String) (t : Tables) : Except String (String × String × Tables) :=
  match strings.Split k ':' with
  | [_, functionName, field] =>
    if functionName = "list_append" then .ok (field, functionName, t)
    else if functionName = "increase" ∨ functionName = "decrease" then
      .ok (field, functionName,
        { t with expressionAttributeValues :=
            GoMap.assign t.expressionAttributeValues ":_Zero" (Value.int 0) })
    else .error (unsupportedFunctionName k)
  | _ => .error (unsupportedFunctionFormat k)

/-- The code under the label `build:` (lines 508-530): one value placeholder and one fragment,
qualified with `parentName` when it is set. -/
def buildFragment (parentName : Option (List String)) (isFunction : Bool)
    (functionName k : String) (v : Value) (t : Tables) : Option String × Tables :=
  let valueToken : String :=
    match parentName with
    | none => ":" ++ k
    | some p => ":" ++ strings.Join (p ++ [k]) "_"
  let target : String :=
    match parentName with
    | none => "#" ++ k
    | some p => "#" ++ strings.Join (p ++ [k]) ".#"
  let t1 : Tables :=
    { t with expressionAttributeValues := GoMap.assign t.expressionAttributeValues valueToken v }
  if isFunction then
    match buildFunctionForExpressionAttributeNamesAndValue functionName k with
    | .ok function =>
      (none, { t1 with expressionNamesAndValues :=
                GoMap.assign t1.expressionNamesAndValues target function })
    | .error err =>
      (some err, { t1 with expressionNamesAndValues :=
                    GoMap.assign t1.expressionNamesAndValues target "" })
  else
    (none, { t1 with expressionNamesAndValues :=
              GoMap.assign t1.expressionNamesAndValues target valueToken })

mutual
/-- Go `buildExpressionAttributeNamesAndValue` (lines 459-534). The entries of `mapData` are
visited in list order; the result is the returned `err` and the tables as the call leaves them.
`parentName` is a local of the call: an entry with a nested map reassigns it for the rest of the
loop. -/
def buildExpressionAttributeNamesAndValue :
    Option (List String) → List (String × Value) → Tables → Option String × Tables
  | _, [], t => (none, t)
  | parentName, (k0, v) :: rest, t =>
    let isFunction : Bool := decide (0 = strings.Index k0 "Fn:")
    match (if isFunction then functionDirective k0 t else .ok (k0, "", t)) with
    | .error err => (some err, t)
    | .ok (k, functionName, t1) =>
      let t2 : Tables :=
        { t1 with expressionAttributeNames := GoMap.assign t1.expressionAttributeNames ("#" ++ k) k }
      if !isFunction && v.isMap then
        match parentName with
        | none =>
          match buildNested (some [k]) v t2 with
          | (some err, t3) => (some err, t3)
          | (none, t3) => buildExpressionAttributeNamesAndValue (some [k]) rest t3
        | some p =>
          if 1 ≤ p.length then
            match buildFragment parentName isFunction functionName k v t2 with
            | (some err, t3) => (some err, t3)
            | (none, t3) => buildExpressionAttributeNamesAndValue parentName rest t3
          else
            match buildNested (some (p ++ [k])) v t2 with
            | (some err, t3) => (some err, t3)
            | (none, t3) => buildExpressionAttributeNamesAndValue (some (p ++ [k])) rest t3
      else
        match buildFragment parentName isFunction functionName k v t2 with
        | (some err, t3) => (some err, t3)
        | (none, t3) => buildExpressionAttributeNamesAndValue parentName rest t3
/-- The recursive call of line 499 on `v.(map[string]interface{})`. -/
def buildNested : Option (List String) → Value → Tables → Option String × Tables
  | parentName, .map m, t => buildExpressionAttributeNamesAndValue parentName m t
  | _, _, t => (none, t)
end

/-! ## Filter-expression builder -/

/-- Go `getWhere` (lines 584-602); `none` is the panic of a failed `.(string)` assertion. -/
def getWhere (item : GoMap Value) : Option String :=
  match Value.asString (GoMap.lookup item "field"), Value.asString (GoMap.lookup item "type") with
  | some f, some searchType =>
    let field := strings.ReplaceAll (strings.RemoveAll f '.') (Char.ofNat 34) (Char.ofNat 39)
    if searchType = "keyword" then some ("contains (#" ++ field ++ ", :" ++ field ++ ")")
    else if searchType = "const" then some ("#" ++ field ++ " = :" ++ field)
    else if searchType = "date" then
      some ("#" ++ field ++ " BETWEEN :" ++ (field ++ "Start") ++ " AND :" ++ (field ++ "End"))
    else if searchType = "exist" then some ("attribute_exists(#" ++ field ++ ")")
    else some ""
  | _, _ => none

/-- The value placeholders one filter item registers (lines 566-577); `none` is a panic (failed
assertion, or `date[1]` out of range). -/
def filterValues (item : GoMap Value) (field : String) (values : GoMap AttributeValue) :
    Option (GoMap AttributeValue) :=
  match Value.asString (GoMap.lookup item "type") with
  | none => none
  | some searchType =>
    if searchType = "date" then
      match Value.asString (GoMap.lookup item "keyword") with
      | none => none
      | some keyword =>
        let date := strings.Split keyword '/'
        match date[0]?, date[1]? with
        | some d0, some d1 =>
          some (GoMap.assign (GoMap.assign values (":" ++ field ++ "Start") (.S d0))
            (":" ++ field ++ "End") (.S d1))
        | _, _ => none
    else if searchType ≠ "exist" then
      match GoMap.lookup item "keyword" with
      | some (.bool b) => some (GoMap.assign values (":" ++ field) (.BOOL b))
      | some (.str w) => some (GoMap.assign values (":" ++ field) (.S w))
      | _ => some values
    else some values

/-- The loop of `processQueryOptionFilter` (lines 556-579) from iteration `i` on. -/
def processQueryOptionFilterLoop :
    List (String × Value) → Nat → String → GoMap AttributeValue → GoMap String →
      Option (String × GoMap AttributeValue × GoMap String)
  | [], _, filterExpression, values, names => some (filterExpression, values, names)
  | (_, value) :: rest, i, filterExpression, values, names =>
    match Value.asMap value with
    | none => none
    | some item =>
      match Value.asString (GoMap.lookup item "field"), getWhere item with
      | some f, some filter =>
        let field := strings.RemoveAll f '.'
        let filterExpression :=
          if i = 0 then filterExpression ++ filter else filterExpression ++ (" AND " ++ filter)
        let names := GoMap.assign names ("#" ++ field) f
        match filterValues item field values with
        | none => none
        | some values => processQueryOptionFilterLoop rest (i + 1) filterExpression values names
      | _, _ => none

/-- Go `processQueryOptionFilter` (lines 551-582): the filter expression and the two tables
after the call; `none` is a panic. The returned `err` is always nil. -/
def processQueryOptionFilter (filter : GoMap Value) (expressionAttributeValues : GoMap AttributeValue)
    (expressionAttributeName : GoMap String) :
    Option (String × GoMap AttributeValue × GoMap String) :=
  processQueryOptionFilterLoop filter 0 "" expressionAttributeValues expressionAttributeName

/-! ## Pagination driver (`GetItemList`) -/

/-- A row: `map[string]types.AttributeValue`. -/
abbrev Item := GoMap AttributeValue

structure QueryOptionOrder where
  Field : String
  Direction : String

structure QueryOptionPage where
  AllInOne : Bool
  PageSize : Nat
  LastEvaluatedKey : Value

structure QueryOption where
  Filter : Option (GoMap Value)
  Order : List QueryOptionOrder
  ScanIndexForward : Option Bool
  Page : Option QueryOptionPage

/-- The fields of `dynamodb.QueryInput` that `GetItemList` sets. -/
structure QueryInput where
  ExpressionAttributeNames : GoMap String
  ExpressionAttributeValues : GoMap AttributeValue
  KeyConditionExpression : String
  TableName : String
  ScanIndexForward : Option Bool
  FilterExpression : Option String
  Limit : Option Int
  ExclusiveStartKey : Option (GoMap AttributeValue)
  IndexName : Option String
  ProjectionExpression : Option String
  deriving DecidableEq

/-- The fields of `dynamodb.QueryOutput` that `GetItemList` reads. -/
structure QueryOutput where
  Items : List Item
  LastEvaluatedKey : Option (GoMap AttributeValue)

/-- The external collaborators: the store's `Query` (which may change the store's state `σ` and
may answer the same request differently on a later call) and the attribute-value codec. -/
structure Collaborators (σ : Type) where
  Query : σ → QueryInput → Except String QueryOutput × σ
  MarshalMap : Value → Except String (GoMap AttributeValue)
  UnmarshalMap : GoMap AttributeValue → Except String (GoMap Value)

/-- The named results of `GetItemList`. -/
structure GetItemListReturn where
  items : List Item
  lastEvaluatedKey : Option (GoMap Value)
  err : Option String

/-- How a call of `GetItemList` stands: it returned, it panicked, or it is still in the
`goto query` loop when the step budget is used up. -/
inductive Run where
  | returned (r : GetItemListReturn)
  | panicked
  | running (items : List Item)

/-- A run together with the requests sent to `Query`, oldest first, and the store's state. -/
structure Execution (σ : Type) where
  run : Run
  requests : List QueryInput
  store : σ

/-- Go `int32(x)` for an unsigned `x`. -/
def toInt32 (n : Nat) : Int :=
  if n % 2 ^ 32 < 2 ^ 31 then (n % 2 ^ 32 : Nat) else (n % 2 ^ 32 : Nat) - 2 ^ 32

/-- The loop `query: ... goto query` (lines 233-258). `input` is the request built before the
label; nothing inside the loop writes to it. `drain` is
`nil != queryOption.Page && queryOption.Page.AllInOne`. One unit of `fuel` is one `Query`. -/
def queryLoop {σ : Type} (c : Collaborators σ) (input : QueryInput) (drain : Bool) :
    Nat → σ → List Item → Option (GoMap Value) → List QueryInput → Execution σ
  | 0, s, items, _, requests => ⟨.running items, requests, s⟩
  | fuel + 1, s, items, lastEvaluatedKey, requests =>
    match c.Query s input with
    | (.error err, s1) => ⟨.returned ⟨items, lastEvaluatedKey, some err⟩, requests ++ [input], s1⟩
    | (.ok output, s1) =>
      match output.LastEvaluatedKey with
      | some wire =>
        match c.UnmarshalMap wire with
        | .error err =>
          ⟨.returned ⟨items, lastEvaluatedKey, some err⟩, requests ++ [input], s1⟩
        | .ok key =>
          if drain then
            queryLoop c input drain fuel s1 (items ++ output.Items) (some key) (requests ++ [input])
          else
            ⟨.returned ⟨items ++ output.Items, some key, none⟩, requests ++ [input], s1⟩
      | none =>
        ⟨.returned ⟨items ++ output.Items, lastEvaluatedKey, none⟩, requests ++ [input], s1⟩

/-- The paging part of the request (lines 202-215): `Limit` and `ExclusiveStartKey`. -/
def pageInput (marshalMap : Value → Except String (GoMap AttributeValue))
    (page : Option QueryOptionPage) :
    Exit (Option Int × Option (GoMap AttributeValue)) :=
  match page with
  | none => .ok (none, none)
  | some pg =>
    match Value.reflectLen pg.LastEvaluatedKey with
    | none => .panic (some (toInt32 pg.PageSize), none)
    | some len =>
      if len > 0 then
        match marshalMap pg.LastEvaluatedKey with
        | .error err => .error err (some (toInt32 pg.PageSize), none)
        | .ok wire => .ok (some (toInt32 pg.PageSize), some wire)
      else .ok (some (toInt32 pg.PageSize), none)

/-- The projection part (lines 221-231): the name table with one entry per selected field, and
the projection expression. -/
def projection (arrayOfField : String) (names : GoMap String) : GoMap String × Option String :=
  if arrayOfField ≠ "" then
    let temp := strings.Split arrayOfField ','
    (temp.foldl (fun ns v => GoMap.assign ns ("#" ++ v) (strings.RemoveAll v '#')) names,
      some (strings.Join (temp.map (fun v => "#" ++ v)) ","))
  else (names, none)

/-- Go `(*DynamoDbClient).GetItemList` (lines 114-259), run for at most `fuel` calls of `Query`
from the store state `s`. -/
def GetItemList {σ : Type} (c : Collaborators σ) (tableName : String) (key : Key)
    (arrayOfField : String) (queryOption : QueryOption) (fuel : Nat) (s : σ) : Execution σ :=
  let scanIndexForward : Bool := queryOption.ScanIndexForward.getD false
  match keyCondition key with
  | .panic _ => ⟨.panicked, [], s⟩
  | .error err _ => ⟨.returned ⟨[], none, some err⟩, [], s⟩
  | .ok kc =>
    let filtered : Option (Option String × GoMap AttributeValue × GoMap String) :=
      match queryOption.Filter with
      | none => some (none, kc.expressionAttributeValues, kc.expressionAttributeNames)
      | some filter =>
        (processQueryOptionFilter filter kc.expressionAttributeValues
          kc.expressionAttributeNames).map (fun r => (some r.1, r.2.1, r.2.2))
    match filtered with
    | none => ⟨.panicked, [], s⟩
    | some (filterExpression, values, names) =>
      match pageInput c.MarshalMap queryOption.Page with
      | .panic _ => ⟨.panicked, [], s⟩
      | .error err _ => ⟨.returned ⟨[], none, some err⟩, [], s⟩
      | .ok (limit, exclusiveStartKey) =>
        let proj := projection arrayOfField names
        let input : QueryInput :=
          { ExpressionAttributeNames := proj.1
            ExpressionAttributeValues := values
            KeyConditionExpression := kc.keyConditionExpression
            TableName := tableName
            ScanIndexForward := some scanIndexForward
            FilterExpression := filterExpression
            Limit := limit
            ExclusiveStartKey := exclusiveStartKey
            IndexName := key.IndexName
            ProjectionExpression := proj.2 }
        let drain : Bool :=
          match queryOption.Page with
          | none => false
          | some pg => pg.AllInOne
        queryLoop c input drain fuel s [] none []

/-! ## Point lookup (`GetItem`, `getItemViaGsi`) -/

/-- The fields of `dynamodb.GetItemInput` that `GetItem` sets. -/
structure GetItemInput where
  Key : GoMap AttributeValue
  TableName : String

/-- The field of `dynamodb.GetItemOutput` that `GetItem` reads; a nil `Item` is `none`. -/
structure GetItemOutput where
  Item : Option Item

/-- The collaborators of `GetItem`: the codec for the key, the store's get and the store's
query. -/
structure PointCollaborators where
  MarshalMap : Key → Except String (GoMap AttributeValue)
  GetItem : GetItemInput → Except String GetItemOutput
  Query : QueryInput → Except String QueryOutput

/-- The errors `GetItem` returns: the item-not-found error it creates itself (lines 344 and
388, its text names the key), or an error handed back by a collaborator. -/
inductive GetItemError where
  | itemNotFound (key : Key)
  | collaborator (err : String)

/-- The results of `GetItem`: `(item, nil)`, `(nil, err)`, or a panic. -/
inductive PointResult where
  | found (item : Item)
  | failed (err : GetItemError)
  | panicked

/-- The request `getItemViaGsi` builds (lines 360-380). -/
def gsiQueryInput (tableName pk indexName : String) (sk : Option String) : QueryInput :=
  { ExpressionAttributeNames := []
    ExpressionAttributeValues :=
      match sk with
      | none => GoMap.assign [] ":gsipk" (.S pk)
      | some k => GoMap.assign (GoMap.assign [] ":gsipk" (.S pk)) ":gsisk" (.S k)
    KeyConditionExpression :=
      match sk with
      | none => indexName ++ "PK = :gsipk"
      | some k =>
        if strings.HasSuffix k "#" then
          indexName ++ "PK = :gsipk and begins_with(" ++ indexName ++ "SK, :gsisk)"
        else indexName ++ "PK = :gsipk and " ++ indexName ++ "SK = :gsisk"
    TableName := tableName
    ScanIndexForward := none
    FilterExpression := none
    Limit := some 1
    ExclusiveStartKey := none
    IndexName := some indexName
    ProjectionExpression := none }

/-- Go `(*DynamoDbClient).getItemViaGsi` (lines 356-395). `*key.PK` and `*key.IndexName` are
dereferenced without a nil check. -/
def getItemViaGsi (c : PointCollaborators) (tableName : String) (key : Key) : PointResult :=
  match key.PK, key.IndexName with
  | some pk, some indexName =>
    match c.Query (gsiQueryInput tableName pk indexName key.SK) with
    | .error err => .failed (.collaborator err)
    | .ok output =>
      match output.Items with
      | [] => .failed (.itemNotFound key)
      | item :: _ => .found item
  | _, _ => .panicked

/-- Go `(*DynamoDbClient).GetItem` (lines 323-354). -/
def GetItem (c : PointCollaborators) (tableName : String) (key : Key) : PointResult :=
  match key.IndexName with
  | none =>
    match c.MarshalMap key with
    | .error err => .failed (.collaborator err)
    | .ok av =>
      match c.GetItem ⟨av, tableName⟩ with
      | .error err => .failed (.collaborator err)
      | .ok output =>
        match output.Item with
        | none => .failed (.itemNotFound key)
        | some item => .found item
  | some _ => getItemViaGsi c tableName key

/-! ## Update (`UpdateItem`) -/

/-- The fields of `dynamodb.UpdateItemInput` that `UpdateItem` sets. -/
structure UpdateItemInput where
  Key : GoMap AttributeValue
  TableName : String
  ExpressionAttributeNames : GoMap String
  ExpressionAttributeValues : GoMap AttributeValue
  UpdateExpression : String
  ReturnValues : String

/-- The collaborators of `UpdateItem`: the codec for the key, the codec for the value table and
the store's update (its output is the map of returned attributes). -/
structure UpdateCollaborators where
  MarshalKey : Key → Except String (GoMap AttributeValue)
  MarshalValues : GoMap Value → Except String (GoMap AttributeValue)
  UpdateItem : UpdateItemInput → Except String (GoMap AttributeValue)

/-- A call of `UpdateItem`: the field map handed to the builder, in visiting order, when the
call gets that far; the request sent to the store, when there is one; and what the call
returns, `none` for a panic. -/
structure UpdateItemRun where
  compiled : Option (GoMap Value)
  request : Option UpdateItemInput
  outcome : Option (Except String (GoMap AttributeValue))

/-- Go `(*DynamoDbClient).UpdateItem` (lines 415-457). `propertyMap` is `none` for a nil map
(the assignment of line 429 then panics); `now` is the value of `time.Now()` at line 429;
`visit` is the order in which the runtime ranges over the field map once `UpdatedTimestamp` is
in it, and `visitFragments` the order in which it ranges over the fragment table at line 441. -/
def UpdateItem (c : UpdateCollaborators) (tableName : String) (key : Key)
    (propertyMap : Option (GoMap Value)) (now : Nat) (visit : GoMap Value → GoMap Value)
    (visitFragments : GoMap String → GoMap String) : UpdateItemRun :=
  match c.MarshalKey key with
  | .error err => ⟨none, none, some (.error err)⟩
  | .ok keyAv =>
    match propertyMap with
    | none => ⟨none, none, none⟩
    | some m =>
      let fieldMap := visit (GoMap.assign m "UpdatedTimestamp" (Value.time now))
      match buildExpressionAttributeNamesAndValue none fieldMap ⟨[], [], []⟩ with
      | (some err, _) => ⟨some fieldMap, none, some (.error err)⟩
      | (none, t) =>
        match c.MarshalValues t.expressionAttributeValues with
        | .error err => ⟨some fieldMap, none, some (.error err)⟩
        | .ok expressionAv =>
          let updateExpressions :=
            (visitFragments t.expressionNamesAndValues).map (fun kv => kv.1 ++ "=" ++ kv.2)
          let input : UpdateItemInput :=
            { Key := keyAv
              TableName := tableName
              ExpressionAttributeNames := t.expressionAttributeNames
              ExpressionAttributeValues := expressionAv
              UpdateExpression := "set " ++ strings.Join updateExpressions ", "
              ReturnValues := "UPDATED_NEW" }
          ⟨some fieldMap, some input, some (c.UpdateItem input)⟩

/-- Lines 432-456 of `UpdateItem`: what the call does with the result `built` of the builder
on the field map `fieldMap`: it returns the builder's error, or encodes the value table, joins
the fragments into the update expression and sends the request. -/
def updateAfterBuild (c : UpdateCollaborators) (tableName : String)
    (keyAv : GoMap AttributeValue) (visitFragments : GoMap String → GoMap String)
    (fieldMap : GoMap Value) (built : Option String × Tables) : UpdateItemRun :=
  match built with
  | (some err, _) => ⟨some fieldMap, none, some (.error err)⟩
  | (none, t) =>
    match c.MarshalValues t.expressionAttributeValues with
    | .error err => ⟨some fieldMap, none, some (.error err)⟩
    | .ok expressionAv =>
      let updateExpressions :=
        (visitFragments t.expressionNamesAndValues).map (fun kv => kv.1 ++ "=" ++ kv.2)
      let input : UpdateItemInput :=
        { Key := keyAv
          TableName := tableName
          ExpressionAttributeNames := t.expressionAttributeNames
          ExpressionAttributeValues := expressionAv
          UpdateExpression := "set " ++ strings.Join updateExpressions ", "
          ReturnValues := "UPDATED_NEW" }
      ⟨some fieldMap, some input, some (c.UpdateItem input)⟩

/-! ## Sort-key values (`model.go`) -/

/-- A non-nil `*uint`: the address the pointer holds, and the number stored there. -/
structure UintPointer where
  address : Nat
  value : Nat

def ValueSk : String := "DISPLAYORDER"

/-- The decimal digits of `n`, most significant first; `fuel` bounds the number of digits. -/
def decimalCore : Nat → Nat → List Char → List Char
  | 0, _, acc => acc
  | fuel + 1, n, acc =>
    if n / 10 = 0 then Char.ofNat (48 + n % 10) :: acc
    else decimalCore fuel (n / 10) (Char.ofNat (48 + n % 10) :: acc)

/-- Go `fmt.Sprintf("%04d", n)` for a non-negative integer: decimal, padded with zeros on the
left to at least four digits. -/
def Sprintf04d (n : Nat) : String :=
  String.mk (List.replicate (4 - (decimalCore (n + 1) n []).length) '0' ++
    decimalCore (n + 1) n [])

/-- Go `strings.ToUpper(s)` on ASCII text. -/
def strings.ToUpper (s : String) : String :=
  String.mk (s.data.map Char.toUpper)

/-- Go `BuildValueSk` (model.go, lines 51-59). The argument of `%04d` is the pointer
`displayOrder` itself, and for a pointer the verb `%d` formats the address it holds as an
integer; the number it points to is not read. -/
def BuildValueSk (displayOrder : Option UintPointer) : String :=
  let displayOrderString : String :=
    match displayOrder with
    | none => ""
    | some p => Sprintf04d p.address
  strings.ToUpper (strings.Join [ValueSk, displayOrderString] "#")

/-! ## Concrete stores and inputs -/

/-- A store that answers every request with no rows and no continuation token. -/
def emptyStore : Collaborators Unit where
  Query := fun s _ => (.ok ⟨[], none⟩, s)
  MarshalMap := fun _ => .ok []
  UnmarshalMap := fun _ => .ok []

/-- The query option with no filter, no ordering and no paging. -/
def noQueryOption : QueryOption := ⟨none, [], none, none⟩

/-- The decoder used by the concrete stores: a string attribute decodes to a string, a boolean
attribute to a boolean. -/
def decodeKey (wire : GoMap AttributeValue) : GoMap Value :=
  wire.map (fun p => (p.1, match p.2 with
    | .S w => Value.str w
    | .BOOL b => Value.bool b))

/-- A page of `n` rows, each `PK = tag`. -/
def rows (n : Nat) (tag : String) : List Item :=
  List.replicate n [("PK", AttributeValue.S tag)]

/-- The continuation token that names page `tag`. -/
def token (tag : String) : GoMap AttributeValue := [("PK", AttributeValue.S tag)]

/-- A store with three pages of 10, 10 and 5 rows: a request with no `ExclusiveStartKey`
gets the first page and the token `t1`, a request carrying `t1` gets the second page and the
token `t2`, a request carrying `t2` gets the last page and no token. The store is stateless:
its answer depends on the request only. -/
def threePageStore : Collaborators Unit where
  Query := fun s input =>
    match input.ExclusiveStartKey with
    | none => (.ok ⟨rows 10 "a", some (token "t1")⟩, s)
    | some k =>
      if k = token "t1" then (.ok ⟨rows 10 "b", some (token "t2")⟩, s)
      else if k = token "t2" then (.ok ⟨rows 5 "c", none⟩, s)
      else (.ok ⟨[], none⟩, s)
  MarshalMap := fun _ => .ok []
  UnmarshalMap := fun wire => .ok (decodeKey wire)

/-- A store whose state counts the calls of `Query`: the first call answers one row and the
token `t1`, every later call answers one row and no token, whatever the request. -/
def secondCallFinalStore : Collaborators Nat where
  Query := fun n _ =>
    if n = 0 then (.ok ⟨rows 1 "a", some (token "t1")⟩, n + 1)
    else (.ok ⟨rows 1 "b", none⟩, n + 1)
  MarshalMap := fun _ => .ok []
  UnmarshalMap := fun wire => .ok (decodeKey wire)

/-- The query option with drain-all set: `Page{AllInOne: true, PageSize: 10,
LastEvaluatedKey: {}}`. -/
def drainAllOption : QueryOption := ⟨none, [], none, some ⟨true, 10, .map []⟩⟩

/-- The key `(IndexName = GSI1, PK = P)`. -/
def partitionKey : Key := ⟨some "P", none, some "GSI1", none⟩

/-- The request `GetItemList` builds for `partitionKey` under `drainAllOption` on table `t`. -/
def firstRequest : QueryInput :=
  { ExpressionAttributeNames := [("#GSI1PK", "GSI1PK"), ("#GSI1SK", "GSI1SK")]
    ExpressionAttributeValues := [(":gsipk", .S "P")]
    KeyConditionExpression := "#GSI1PK = :gsipk"
    TableName := "t"
    ScanIndexForward := some false
    FilterExpression := none
    Limit := some 10
    ExclusiveStartKey := none
    IndexName := some "GSI1"
    ProjectionExpression := none }

/-- The field map, in visiting order, of a list of counter directives: `(true, F, d)` is the
entry `Fn:increase:F` with value `d`, `(false, F, d)` the entry `Fn:decrease:F`. -/
def counterDirectives (ds : List (Bool × String × Value)) : List (String × Value) :=
  ds.map (fun x => ((if x.1 then "Fn:increase:" else "Fn:decrease:") ++ x.2.1, x.2.2))

/-- The token `getWhere` writes into a clause for the field `f` (lines 586-588): the dots are
removed, then every double quote is replaced by a single quote. -/
def clauseToken (f : String) : String :=
  strings.ReplaceAll (strings.RemoveAll f '.') (Char.ofNat 34) (Char.ofNat 39)

/-- The token `processQueryOptionFilter` uses for the keys of the two tables (line 558): the
dots are removed. -/
def tableToken (f : String) : String :=
  strings.RemoveAll f '.'

/-- The clause of one entry of the filter map: what `getWhere` returns for its item. -/
def clauseOf (value : Value) : String :=
  match Value.asMap value with
  | some item => (getWhere item).getD ""
  | none => ""

/-- A table with no rows: the get finds no item and every query returns zero rows. -/
def emptyTable : PointCollaborators where
  MarshalMap := fun _ => .ok []
  GetItem := fun _ => .ok ⟨none⟩
  Query := fun _ => .ok ⟨[], none⟩

/-- A table in which every get finds the row `PK = a` and every query returns the rows
`PK = a`, `PK = b`. -/
def twoRowTable : PointCollaborators where
  MarshalMap := fun _ => .ok []
  GetItem := fun _ => .ok ⟨some [("PK", .S "a")]⟩
  Query := fun _ => .ok ⟨[[("PK", .S "a")], [("PK", .S "b")]], none⟩

/-- Collaborators of `UpdateItem` that encode everything to the empty map and accept every
update. -/
def acceptingStore : UpdateCollaborators where
  MarshalKey := fun _ => .ok []
  MarshalValues := fun _ => .ok []
  UpdateItem := fun _ => .ok []

/-- An encoder that shows what it encodes: a time and an integer as their four-digit decimal
text, a string as itself, a boolean as itself. -/
def encodeValue : Value → AttributeValue
  | .time t => .S (Sprintf04d t)
  | .int n => .S (Sprintf04d n.toNat)
  | .str w => .S w
  | .bool b => .BOOL b
  | _ => .S ""

/-- Collaborators of `UpdateItem` that encode the value table entry by entry with
`encodeValue` and accept every update. -/
def encodingStore : UpdateCollaborators where
  MarshalKey := fun _ => .ok []
  MarshalValues := fun values => .ok (values.map (fun kv => (kv.1, encodeValue kv.2)))
  UpdateItem := fun _ => .ok []

/-! ## Lemmas on the string helpers -/

namespace strings

theorem splitChars_ne_nil (sep : Char) (l : List Char) : splitChars sep l ≠ [] := by
  cases l with
  | nil => simp [splitChars]
  | cons c cs =>
    unfold splitChars
    split
    · simp
    · split <;> simp

theorem splitChars_of_not_mem {sep : Char} {l : List Char} (h : sep ∉ l) :
    splitChars sep l = [l] := by
  induction l with
  | nil => rfl
  | cons c cs ih =>
    have hc : ¬ c = sep := fun e => h (by simp [e])
    have hcs : sep ∉ cs := fun e => h (by simp [e])
    simp [splitChars, hc, ih hcs]

theorem splitChars_append_sep (sep : Char) (a b : List Char) :
    splitChars sep (a ++ sep :: b) = splitChars sep a ++ splitChars sep b := by
  induction a with
  | nil => simp [splitChars]
  | cons c cs ih =>
    by_cases hc : c = sep
    · simp [splitChars, hc, ih]
    · have hne := splitChars_ne_nil sep cs
      cases hs : splitChars sep cs with
      | nil => exact absurd hs hne
      | cons seg segs => simp [splitChars, hc, ih, hs]

theorem joinChars_cons_cons (sep : List Char) (c : Char) (seg : List Char)
    (segs : List (List Char)) :
    joinChars sep ((c :: seg) :: segs) = c :: joinChars sep (seg :: segs) := by
  cases segs <;> simp [joinChars]

theorem joinChars_splitChars (sep : Char) (l : List Char) :
    joinChars [sep] (splitChars sep l) = l := by
  induction l with
  | nil => rfl
  | cons c cs ih =>
    have hne := splitChars_ne_nil sep cs
    cases hs : splitChars sep cs with
    | nil => exact absurd hs hne
    | cons seg segs =>
      rw [hs] at ih
      by_cases hc : c = sep
      · simp [splitChars, hc, hs, joinChars, ih]
      · simp [splitChars, hc, hs, joinChars_cons_cons, ih]

theorem Join_Split (s : String) (sep : Char) : Join (Split s sep) (String.mk [sep]) = s := by
  simp [Join, Split, List.map_map, Function.comp_def, joinChars_splitChars]

theorem HasSuffix_iff (s suffix : String) :
    HasSuffix s suffix = true ↔ ∃ body : String, s = body ++ suffix := by
  unfold HasSuffix
  rw [List.isSuffixOf_iff_suffix]
  constructor
  · rintro ⟨t, ht⟩
    exact ⟨String.mk t, String.ext (by simp [ht])⟩
  · rintro ⟨body, rfl⟩
    exact ⟨body.data, by simp⟩

end strings

/-! ## Key-condition builder: theorems -/

theorem betweenBounds_eq (pfx low high : String)
    (hl1 : '#' ∉ low.data) (hl2 : '/' ∉ low.data)
    (hh1 : '#' ∉ high.data) (hh2 : '/' ∉ high.data) :
    betweenBounds (pfx ++ "#" ++ low ++ "/" ++ high) =
      some (pfx ++ "#" ++ low, pfx ++ "#" ++ high) := by
  have hdata : (pfx ++ "#" ++ low ++ "/" ++ high).data =
      pfx.data ++ '#' :: (low.data ++ '/' :: high.data) := by
    simp [String.data_append]
  have hlast : '#' ∉ low.data ++ '/' :: high.data := by
    simp [hl1, hh1]
  have hsplit : strings.Split (pfx ++ "#" ++ low ++ "/" ++ high) '#' =
      strings.Split pfx '#' ++ [low ++ "/" ++ high] := by
    unfold strings.Split
    rw [hdata, strings.splitChars_append_sep, strings.splitChars_of_not_mem hlast]
    simp
    exact String.ext (by simp [String.data_append])
  have hsec : strings.Split (low ++ "/" ++ high) '/' = [low, high] := by
    unfold strings.Split
    have : (low ++ "/" ++ high).data = low.data ++ '/' :: high.data := by
      simp [String.data_append]
    rw [this, strings.splitChars_append_sep, strings.splitChars_of_not_mem hl2,
      strings.splitChars_of_not_mem hh2]
    rfl
  have hcont : strings.Contains (pfx ++ "#" ++ low ++ "/" ++ high) '#' = true := by
    unfold strings.Contains
    rw [hdata]
    simp
  have hjoin : strings.Join (strings.Split pfx '#') "#" = pfx := strings.Join_Split pfx '#'
  unfold betweenBounds
  rw [if_pos hcont]
  simp only [hsplit, List.dropLast_concat, List.getLast?_concat, hsec, hjoin]
  rfl

theorem indexNames_ne (indexName : String) :
    ("#" ++ indexName ++ "PK" : String) ≠ "#" ++ indexName ++ "SK" := by
  intro h
  have := congrArg String.data h
  simp [String.data_append] at this

/-- C1: for a key with partition value, index selector, operator `between` and sort-key value
`<pfx>#<low>/<high>` (low and high free of `#` and `/`), the key-condition code ends normally
with the value table holding `:gsipk` and exactly the two sort-key placeholders `:gsiskBegin`
bound to `<pfx>#<low>` and `:gsiskEnd` bound to `<pfx>#<high>`, and with the `between` clause
joined after the partition clause. -/
theorem between_emits_split_bounds (pk indexName pfx low high : String)
    (hl1 : '#' ∉ low.data) (hl2 : '/' ∉ low.data)
    (hh1 : '#' ∉ high.data) (hh2 : '/' ∉ high.data) :
    keyCondition ⟨some pk, some (pfx ++ "#" ++ low ++ "/" ++ high), some indexName,
        some "between"⟩ =
      .ok { expressionAttributeValues :=
              [(":gsipk", .S pk), (":gsiskBegin", .S (pfx ++ "#" ++ low)),
                (":gsiskEnd", .S (pfx ++ "#" ++ high))]
            keyConditionExpression :=
              "#" ++ indexName ++ "PK = :gsipk And #" ++ indexName ++
                "SK between :gsiskBegin and :gsiskEnd"
            expressionAttributeNames :=
              [("#" ++ indexName ++ "PK", indexName ++ "PK"),
                ("#" ++ indexName ++ "SK", indexName ++ "SK")] } := by
  have hb := betweenBounds_eq pfx low high hl1 hl2 hh1 hh2
  simp [keyCondition, inferSortKeyType, sortKeyValues, sortKeyConditionExpression, hb,
    KeySortKeyTypeEqualTo, KeySortKeyTypeLessThanOrEqualTo, KeySortKeyTypeLessThan,
    KeySortKeyTypeGreaterThanOrEqualTo, KeySortKeyTypeGreaterThan, KeySortKeyTypeBeginsWith,
    KeySortKeyTypeBetween, GoMap.assign, indexNames_ne]
  apply String.ext
  simp [String.data_append]

/-- The spec's example for C1: `A#B#1/9` gives the bounds `A#B#1` and `A#B#9`. -/
theorem between_emits_split_bounds_witness :
    keyCondition ⟨some "P", some "A#B#1/9", some "GSI1", some "between"⟩ =
      .ok { expressionAttributeValues :=
              [(":gsipk", .S "P"), (":gsiskBegin", .S "A#B#1"), (":gsiskEnd", .S "A#B#9")]
            keyConditionExpression :=
              "#GSI1PK = :gsipk And #GSI1SK between :gsiskBegin and :gsiskEnd"
            expressionAttributeNames := [("#GSI1PK", "GSI1PK"), ("#GSI1SK", "GSI1SK")] } :=
  between_emits_split_bounds "P" "GSI1" "A#B" "1" "9" (by decide) (by decide) (by decide)
    (by decide)

/-- C2: for a key with partition value, index selector, a sort-key value and no explicit
operator, a sort-key value ending in `#` compiles to `begins_with(#<index>SK, :gsisk)` and every
other sort-key value compiles to `#<index>SK = :gsisk`; in both cases `:gsisk` is bound to the
sort-key value. -/
theorem infers_begins_with_or_equals (pk indexName : String) :
    (∀ body : String,
      keyCondition ⟨some pk, some (body ++ "#"), some indexName, none⟩ =
        .ok { expressionAttributeValues := [(":gsipk", .S pk), (":gsisk", .S (body ++ "#"))]
              keyConditionExpression :=
                "#" ++ indexName ++ "PK = :gsipk And begins_with(#" ++ indexName ++ "SK, :gsisk)"
              expressionAttributeNames :=
                [("#" ++ indexName ++ "PK", indexName ++ "PK"),
                  ("#" ++ indexName ++ "SK", indexName ++ "SK")] }) ∧
    (∀ sk : String, (∀ body : String, sk ≠ body ++ "#") →
      keyCondition ⟨some pk, some sk, some indexName, none⟩ =
        .ok { expressionAttributeValues := [(":gsipk", .S pk), (":gsisk", .S sk)]
              keyConditionExpression :=
                "#" ++ indexName ++ "PK = :gsipk And #" ++ indexName ++ "SK = :gsisk"
              expressionAttributeNames :=
                [("#" ++ indexName ++ "PK", indexName ++ "PK"),
                  ("#" ++ indexName ++ "SK", indexName ++ "SK")] }) := by
  constructor
  · intro body
    have hs : strings.HasSuffix (body ++ "#") "#" = true :=
      (strings.HasSuffix_iff _ _).2 ⟨body, rfl⟩
    simp [keyCondition, inferSortKeyType, sortKeyValues, sortKeyConditionExpression, hs,
      KeySortKeyTypeEqualTo, KeySortKeyTypeLessThanOrEqualTo, KeySortKeyTypeLessThan,
      KeySortKeyTypeGreaterThanOrEqualTo, KeySortKeyTypeGreaterThan, KeySortKeyTypeBeginsWith,
      KeySortKeyTypeBetween, GoMap.assign, indexNames_ne]
    apply String.ext
    simp [String.data_append]
  · intro sk hsk
    have hs : strings.HasSuffix sk "#" = false := by
      cases h : strings.HasSuffix sk "#" with
      | false => rfl
      | true =>
        obtain ⟨body, hb⟩ := (strings.HasSuffix_iff _ _).1 h
        exact absurd hb (hsk body)
    simp [keyCondition, inferSortKeyType, sortKeyValues, sortKeyConditionExpression, hs,
      KeySortKeyTypeEqualTo, KeySortKeyTypeLessThanOrEqualTo, KeySortKeyTypeLessThan,
      KeySortKeyTypeGreaterThanOrEqualTo, KeySortKeyTypeGreaterThan, KeySortKeyTypeBeginsWith,
      KeySortKeyTypeBetween, GoMap.assign, indexNames_ne]
    apply String.ext
    simp [String.data_append]

/-- The spec's example for C2: `FOO#` infers `begins_with`, `FOO` infers `=`. -/
theorem infers_begins_with_or_equals_witness :
    keyCondition ⟨some "P", some "FOO#", some "GSI1", none⟩ =
        .ok { expressionAttributeValues := [(":gsipk", .S "P"), (":gsisk", .S "FOO#")]
              keyConditionExpression := "#GSI1PK = :gsipk And begins_with(#GSI1SK, :gsisk)"
              expressionAttributeNames := [("#GSI1PK", "GSI1PK"), ("#GSI1SK", "GSI1SK")] } ∧
    keyCondition ⟨some "P", some "FOO", some "GSI1", none⟩ =
        .ok { expressionAttributeValues := [(":gsipk", .S "P"), (":gsisk", .S "FOO")]
              keyConditionExpression := "#GSI1PK = :gsipk And #GSI1SK = :gsisk"
              expressionAttributeNames := [("#GSI1PK", "GSI1PK"), ("#GSI1SK", "GSI1SK")] } :=
  ⟨(infers_begins_with_or_equals "P" "GSI1").1 "FOO",
    (infers_begins_with_or_equals "P" "GSI1").2 "FOO" (by
      intro body h
      have hs : strings.HasSuffix "FOO" "#" = true := (strings.HasSuffix_iff _ _).2 ⟨body, h⟩
      exact absurd hs (by decide))⟩

/-- C3: for a key with index `I`, partition value `P`, sort value `S` and explicit operator `op`
among `=`, `<=`, `<`, `>=`, `>`, `begins_with`, the key-condition code produces the partition
clause `#<I>PK = :gsipk` followed by the sort clause `#<I>SK op :gsisk` (`begins_with(#<I>SK,
:gsisk)` for `begins_with`), and the value table is exactly `:gsipk` bound to `P` and `:gsisk`
bound to `S`. -/
theorem explicit_operator_clause (P S I op : String)
    (hop : op ∈ ["=", "<=", "<", ">=", ">", "begins_with"]) :
    keyCondition ⟨some P, some S, some I, some op⟩ =
      .ok { expressionAttributeValues := [(":gsipk", .S P), (":gsisk", .S S)]
            keyConditionExpression :=
              "#" ++ I ++ "PK = :gsipk" ++ " And " ++
                (if op = "begins_with" then "begins_with(#" ++ I ++ "SK, :gsisk)"
                  else "#" ++ I ++ "SK " ++ op ++ " :gsisk")
            expressionAttributeNames :=
              [("#" ++ I ++ "PK", I ++ "PK"), ("#" ++ I ++ "SK", I ++ "SK")] } := by
  simp only [List.mem_cons, List.mem_singleton, List.not_mem_nil, or_false] at hop
  rcases hop with h | h | h | h | h | h <;> subst h <;>
    simp [keyCondition, inferSortKeyType, sortKeyValues, sortKeyConditionExpression,
      KeySortKeyTypeEqualTo, KeySortKeyTypeLessThanOrEqualTo, KeySortKeyTypeLessThan,
      KeySortKeyTypeGreaterThanOrEqualTo, KeySortKeyTypeGreaterThan, KeySortKeyTypeBeginsWith,
      KeySortKeyTypeBetween, GoMap.assign, indexNames_ne]

/-- C3 at the key `(GSI2, P, S, <=)`. -/
theorem explicit_operator_clause_witness :
    keyCondition ⟨some "P", some "S", some "GSI2", some "<="⟩ =
      .ok { expressionAttributeValues := [(":gsipk", .S "P"), (":gsisk", .S "S")]
            keyConditionExpression := "#GSI2PK = :gsipk And #GSI2SK <= :gsisk"
            expressionAttributeNames := [("#GSI2PK", "GSI2PK"), ("#GSI2SK", "GSI2SK")] } :=
  explicit_operator_clause "P" "S" "GSI2" "<=" (by decide)

/-- C4, as stated, fails at the key `(GSI1, P, S, like)`: when the unsupported operator is
detected, the value table is not empty, it already holds the placeholder `:gsipk`. -/
theorem unsupported_operator_after_partition_placeholder :
    ¬ ∃ (err : String) (kc : KeyCondition),
        keyCondition ⟨some "P", some "S", some "GSI1", some "like"⟩ = .error err kc ∧
          kc.expressionAttributeValues = [] ∧ kc.expressionAttributeNames = [] := by
  rintro ⟨err, kc, h, hv, -⟩
  have he : keyCondition ⟨some "P", some "S", some "GSI1", some "like"⟩ =
      .error "not supported sort key type (like)"
        ⟨[(":gsipk", .S "P")], "#GSI1PK = :gsipk", []⟩ := rfl
  rw [he] at h
  cases h
  simp at hv

/-- C4 amended: for a key with partition value, index selector, sort-key value and an explicit
operator outside `=`, `<=`, `<`, `>=`, `>`, `between`, `begins_with`, the key-condition code
returns the error `not supported sort key type (<op>)`; at that point the value table holds only
`:gsipk` (registered before the check), no sort-key placeholder and no name placeholder has been
emitted; `GetItemList` returns that error with no rows and without sending any request. -/
theorem unsupported_operator_fails_before_sort_placeholder {σ : Type} (c : Collaborators σ)
    (tableName pk sk indexName op arrayOfField : String) (queryOption : QueryOption)
    (fuel : Nat) (s : σ)
    (hop : op ∉ ["=", "<=", "<", ">=", ">", "between", "begins_with"]) :
    keyCondition ⟨some pk, some sk, some indexName, some op⟩ =
        .error ("not supported sort key type (" ++ op ++ ")")
          ⟨[(":gsipk", .S pk)], "#" ++ indexName ++ "PK = :gsipk", []⟩ ∧
      GetItemList c tableName ⟨some pk, some sk, some indexName, some op⟩ arrayOfField
          queryOption fuel s =
        ⟨.returned ⟨[], none, some ("not supported sort key type (" ++ op ++ ")")⟩, [], s⟩ := by
  simp only [List.mem_cons, List.mem_singleton, List.not_mem_nil, or_false, not_or] at hop
  obtain ⟨h1, h2, h3, h4, h5, h6, h7⟩ := hop
  have hk : keyCondition ⟨some pk, some sk, some indexName, some op⟩ =
      .error ("not supported sort key type (" ++ op ++ ")")
        ⟨[(":gsipk", .S pk)], "#" ++ indexName ++ "PK = :gsipk", []⟩ := by
    simp [keyCondition, inferSortKeyType, sortKeyValues,
      KeySortKeyTypeEqualTo, KeySortKeyTypeLessThanOrEqualTo, KeySortKeyTypeLessThan,
      KeySortKeyTypeGreaterThanOrEqualTo, KeySortKeyTypeGreaterThan, KeySortKeyTypeBeginsWith,
      KeySortKeyTypeBetween, GoMap.assign, h1, h2, h3, h4, h5, h6, h7]
  refine ⟨hk, ?_⟩
  unfold GetItemList
  rw [hk]

/-- C4 amended at the operator `like`. -/
theorem unsupported_operator_fails_before_sort_placeholder_witness :
    keyCondition ⟨some "P", some "S", some "GSI1", some "like"⟩ =
        .error "not supported sort key type (like)"
          ⟨[(":gsipk", .S "P")], "#GSI1PK = :gsipk", []⟩ ∧
      GetItemList emptyStore "t" ⟨some "P", some "S", some "GSI1", some "like"⟩ "" noQueryOption
          5 () =
        ⟨.returned ⟨[], none, some "not supported sort key type (like)"⟩, [], ()⟩ :=
  unsupported_operator_fails_before_sort_placeholder emptyStore "t" "P" "S" "GSI1" "like" ""
    noQueryOption 5 () (by decide)

/-- C5 at the key `(PK = P)` with no index selector: line 126 dereferences the nil
`key.IndexName`, so the key-condition code panics after registering `:gsipk` and before any
clause exists, and `GetItemList` panics without sending a request. -/
theorem no_index_selector_panics {σ : Type} (c : Collaborators σ)
    (tableName arrayOfField : String) (queryOption : QueryOption) (fuel : Nat) (s : σ) :
    keyCondition ⟨some "P", none, none, none⟩ = .panic ⟨[(":gsipk", .S "P")], "", []⟩ ∧
      GetItemList c tableName ⟨some "P", none, none, none⟩ arrayOfField queryOption fuel s =
        ⟨.panicked, [], s⟩ :=
  ⟨rfl, rfl⟩

/-! ## Pagination driver: theorems -/

/-- When the store answers the request `input` with a page that carries a continuation token,
whatever its state, the drain-all loop sends `input` again and again: after `fuel` calls it is
still running, having appended the same page `fuel` times. -/
theorem queryLoop_repeats {σ : Type} (c : Collaborators σ) (input : QueryInput)
    (output : QueryOutput) (wire : GoMap AttributeValue) (key : GoMap Value)
    (hq : ∀ s, c.Query s input = (.ok output, s))
    (hl : output.LastEvaluatedKey = some wire) (hu : c.UnmarshalMap wire = .ok key) :
    ∀ (fuel : Nat) (s : σ) (items : List Item) (lastEvaluatedKey : Option (GoMap Value))
      (requests : List QueryInput),
      queryLoop c input true fuel s items lastEvaluatedKey requests =
        ⟨.running (items ++ (List.replicate fuel output.Items).flatten),
          requests ++ List.replicate fuel input, s⟩ := by
  intro fuel
  induction fuel with
  | zero => intro s items lek requests; simp [queryLoop]
  | succ n ih =>
    intro s items lek requests
    simp only [queryLoop, hq, hl, hu, if_true, ih]
    simp [List.replicate_succ, List.append_assoc]

/-- C6 on the three-page store (10, 10 and 5 rows) with drain-all set: for every number of
`Query` calls allowed, `GetItemList` has not returned; every request it sent is the first
request, with no `ExclusiveStartKey`, and it has accumulated the first page once per call. -/
theorem drain_all_resends_first_request (fuel : Nat) :
    GetItemList threePageStore "t" partitionKey "" drainAllOption fuel () =
      ⟨.running (List.replicate fuel (rows 10 "a")).flatten, List.replicate fuel firstRequest,
        ()⟩ := by
  have h := queryLoop_repeats threePageStore firstRequest ⟨rows 10 "a", some (token "t1")⟩
    (token "t1") (decodeKey (token "t1")) (fun _ => rfl) rfl rfl fuel () [] none []
  simpa using h

/-- C7 on a store whose second answer carries no token, with drain-all set: `GetItemList`
returns without error after two pages, and the continuation token it returns is the token of the
first page, not nil. -/
theorem drain_all_returns_stale_token (fuel : Nat) :
    GetItemList secondCallFinalStore "t" partitionKey "" drainAllOption (fuel + 2) 0 =
      ⟨.returned ⟨rows 1 "a" ++ rows 1 "b", some [("PK", .str "t1")], none⟩,
        [firstRequest, firstRequest], 2⟩ :=
  rfl

/-- The loop never clears `lastEvaluatedKey`: once a request has been sent with a token seen, a
return without error after a further request carries a token. -/
theorem queryLoop_keeps_token {σ : Type} (c : Collaborators σ) (input : QueryInput)
    (drain : Bool) :
    ∀ (fuel : Nat) (s : σ) (items : List Item) (lastEvaluatedKey : Option (GoMap Value))
      (requests : List QueryInput) (r : GetItemListReturn) (sent : List QueryInput) (s' : σ),
      queryLoop c input drain fuel s items lastEvaluatedKey requests = ⟨.returned r, sent, s'⟩ →
      (requests ≠ [] → lastEvaluatedKey ≠ none) → r.err = none → 1 < sent.length →
      r.lastEvaluatedKey ≠ none := by
  intro fuel
  induction fuel with
  | zero =>
    intro s items lek requests r sent s' h
    simp [queryLoop] at h
  | succ n ih =>
    intro s items lek requests r sent s' h hinv herr hlen
    rw [queryLoop] at h
    split at h
    · cases h
      simp at herr
    · split at h
      · split at h
        · cases h
          simp at herr
        · split at h
          · exact ih _ _ _ _ _ _ _ h (fun _ => by simp) herr hlen
          · cases h
            simp
      · cases h
        apply hinv
        intro hreq
        simp [hreq] at hlen

/-- Every run of `GetItemList` that returns without error after sending more than one request
returns a continuation token that is not nil: the token of the last page that had one. -/
theorem return_after_second_page_has_token {σ : Type} (c : Collaborators σ)
    (tableName : String) (key : Key) (arrayOfField : String) (queryOption : QueryOption)
    (fuel : Nat) (s : σ) (r : GetItemListReturn) (sent : List QueryInput) (s' : σ)
    (h : GetItemList c tableName key arrayOfField queryOption fuel s = ⟨.returned r, sent, s'⟩)
    (herr : r.err = none) (hlen : 1 < sent.length) :
    r.lastEvaluatedKey ≠ none := by
  unfold GetItemList at h
  simp only [] at h
  repeat' split at h
  all_goals first
    | exact queryLoop_keeps_token c _ _ fuel s [] none [] r sent s' h
        (fun hne => absurd rfl hne) herr hlen
    | (cases h; simp at hlen)
    | cases h

/-- The preceding theorem applies: the store whose second answer carries no token gives such a
run. -/
theorem return_after_second_page_has_token_applies :
    GetItemList secondCallFinalStore "t" partitionKey "" drainAllOption 2 0 =
        ⟨.returned ⟨rows 1 "a" ++ rows 1 "b", some [("PK", .str "t1")], none⟩,
          [firstRequest, firstRequest], 2⟩ ∧
      (⟨rows 1 "a" ++ rows 1 "b", some [("PK", .str "t1")], none⟩ :
        GetItemListReturn).lastEvaluatedKey ≠ none :=
  ⟨rfl, return_after_second_page_has_token secondCallFinalStore "t" partitionKey ""
    drainAllOption 2 0 ⟨rows 1 "a" ++ rows 1 "b", some [("PK", .str "t1")], none⟩
    [firstRequest, firstRequest] 2 rfl rfl (by decide)⟩

/-! ## Update-expression builder: theorems -/

namespace GoMap

variable {V : Type}

theorem keys_assign (m : GoMap V) (k : String) (v : V) :
    keys (assign m k v) = if k ∈ keys m then keys m else keys m ++ [k] := by
  induction m with
  | nil => simp [assign, keys]
  | cons e rest ih =>
    obtain ⟨k', v'⟩ := e
    by_cases h : k' = k
    · simp [assign, keys, h]
    · have h' : ¬ k = k' := fun e => h e.symm
      simp only [keys] at ih
      simp only [assign, keys, h, if_false, List.map_cons, List.mem_cons, h', false_or, ih]
      split <;> simp

theorem mem_keys_assign_self (m : GoMap V) (k : String) (v : V) : k ∈ keys (assign m k v) := by
  rw [keys_assign]
  split <;> simp [*]

theorem mem_keys_assign_of_mem (m : GoMap V) (k k' : String) (v : V) (h : k' ∈ keys m) :
    k' ∈ keys (assign m k v) := by
  rw [keys_assign]
  split <;> simp [*]

theorem nodup_keys_assign (m : GoMap V) (k : String) (v : V) (h : (keys m).Nodup) :
    (keys (assign m k v)).Nodup := by
  rw [keys_assign]
  split
  · exact h
  · rename_i hk
    exact List.Nodup.append h (List.nodup_singleton k) (by simpa using hk)

end GoMap

theorem isFunction_Fn (r : String) : decide (0 = strings.Index ("Fn:" ++ r) "Fn:") = true := by
  have : ("Fn:" ++ r).data = 'F' :: 'n' :: ':' :: r.data := by simp [String.data_append]
  simp [strings.Index, this, strings.indexChars]

theorem Split_directive (name field : String) (hn : ':' ∉ name.data) (hf : ':' ∉ field.data) :
    strings.Split ("Fn:" ++ name ++ ":" ++ field) ':' = ["Fn", name, field] := by
  have : ("Fn:" ++ name ++ ":" ++ field).data =
      ['F', 'n'] ++ ':' :: (name.data ++ ':' :: field.data) := by simp [String.data_append]
  unfold strings.Split
  rw [this, strings.splitChars_append_sep, strings.splitChars_append_sep,
    strings.splitChars_of_not_mem hn, strings.splitChars_of_not_mem hf,
    strings.splitChars_of_not_mem (by decide)]
  rfl

/-- Visiting a directive `Fn:<name>:<field>` with an unknown function name returns the error of
line 476 and leaves the tables as they are at that moment. -/
theorem build_cons_unknown (parentName : Option (List String)) (name field : String) (v : Value)
    (rest : List (String × Value)) (t : Tables)
    (hname : name ∉ ["list_append", "increase", "decrease"])
    (hn : ':' ∉ name.data) (hf : ':' ∉ field.data) :
    buildExpressionAttributeNamesAndValue parentName (("Fn:" ++ name ++ ":" ++ field, v) :: rest) t
      = (some (unsupportedFunctionName ("Fn:" ++ name ++ ":" ++ field)), t) := by
  simp only [List.mem_cons, List.mem_singleton, List.not_mem_nil, or_false, not_or] at hname
  have hfn : decide (0 = strings.Index ("Fn:" ++ name ++ ":" ++ field) "Fn:") = true := by
    have := isFunction_Fn (name ++ ":" ++ field)
    simpa [String.append_assoc] using this
  rw [buildExpressionAttributeNamesAndValue]
  simp only [hfn, if_true, functionDirective, Split_directive name field hn hf]
  simp [hname.1, hname.2.1, hname.2.2]

/-- Visiting an increase or decrease directive at top level registers the name, `:_Zero`, the
value and the fragment, and goes on with the rest of the map. -/
theorem build_cons_counter (inc : Bool) (F : String) (d : Value) (rest : List (String × Value))
    (t : Tables) (hF : ':' ∉ F.data) :
    buildExpressionAttributeNamesAndValue none
        (((if inc then "Fn:increase:" else "Fn:decrease:") ++ F, d) :: rest) t =
      buildExpressionAttributeNamesAndValue none rest
        { expressionAttributeNames := GoMap.assign t.expressionAttributeNames ("#" ++ F) F
          expressionAttributeValues :=
            GoMap.assign (GoMap.assign t.expressionAttributeValues ":_Zero" (.int 0)) (":" ++ F) d
          expressionNamesAndValues :=
            GoMap.assign t.expressionNamesAndValues ("#" ++ F)
              (if inc then "if_not_exists(" ++ F ++ ", :_Zero) + :" ++ F
                else "if_not_exists(" ++ F ++ ", :_Zero) - :" ++ F) } := by
  have hkey : (if inc then "Fn:increase:" else "Fn:decrease:") ++ F =
      "Fn:" ++ (if inc then "increase" else "decrease") ++ ":" ++ F := by
    cases inc <;> exact String.ext (by simp [String.data_append])
  have hname : ':' ∉ (if inc then "increase" else "decrease" : String).data := by
    cases inc <;> decide
  have hfn : decide (0 = strings.Index ("Fn:" ++ (if inc then "increase" else "decrease") ++ ":"
      ++ F) "Fn:") = true := by
    have := isFunction_Fn ((if inc then "increase" else "decrease") ++ ":" ++ F)
    simpa [String.append_assoc] using this
  rw [hkey, buildExpressionAttributeNamesAndValue]
  simp only [hfn, if_true, functionDirective, Split_directive _ F hname hF]
  cases inc
  · simp [buildFragment, buildFunctionForExpressionAttributeNamesAndValue]
  · simp [buildFragment, buildFunctionForExpressionAttributeNamesAndValue]

/-- Sequencing keeps a property of the tables. -/
theorem bind_preserves (I : Tables → Prop) (x : Option String × Tables)
    (f : Tables → Option String × Tables) (hx : I x.2) (hf : ∀ t, I t → I (f t).2) :
    I (match x with
      | (some err, t3) => (some err, t3)
      | (none, t3) => f t3).2 := by
  obtain ⟨e, t3⟩ := x
  cases e with
  | none => exact hf t3 hx
  | some err => exact hx

/-- Sequencing keeps a property of the returned error. -/
theorem bind_error (E : String → Prop) (x : Option String × Tables)
    (f : Tables → Option String × Tables) (hx : ∀ e, x.1 = some e → E e)
    (hf : ∀ t e, (f t).1 = some e → E e) (e : String)
    (h : (match x with
      | (some err, t3) => (some err, t3)
      | (none, t3) => f t3).1 = some e) : E e := by
  obtain ⟨e0, t3⟩ := x
  cases e0 with
  | none => exact hf t3 e h
  | some err => exact hx e h

mutual
/-- A property of the tables that every single write of the builder keeps is kept by the whole
call, nested maps included. -/
theorem build_preserves (I : Tables → Prop)
    (hdir : ∀ (k : String) (t : Tables) (r : String × String × Tables),
      functionDirective k t = .ok r → I t → I r.2.2)
    (hname : ∀ (t : Tables) (k : String), I t →
      I { t with expressionAttributeNames := GoMap.assign t.expressionAttributeNames ("#" ++ k) k })
    (hfrag : ∀ (p : Option (List String)) (b : Bool) (fn k : String) (v : Value) (t : Tables),
      I t → I (buildFragment p b fn k v t).2) :
    ∀ (m : List (String × Value)) (parentName : Option (List String)) (t : Tables),
      I t → I (buildExpressionAttributeNamesAndValue parentName m t).2
  | [], parentName, t, h => by
    rw [buildExpressionAttributeNamesAndValue]
    exact h
  | (k0, v) :: rest, parentName, t, h => by
    rw [buildExpressionAttributeNamesAndValue]
    cases hd : (if decide (0 = strings.Index k0 "Fn:") = true then functionDirective k0 t
        else Except.ok (k0, "", t)) with
    | error err => simpa [hd] using h
    | ok r =>
      obtain ⟨k, functionName, t1⟩ := r
      have h1 : I t1 := by
        split at hd
        · exact hdir _ _ _ hd h
        · cases hd; exact h
      have h2 := hname t1 k h1
      simp only [hd]
      split
      · cases parentName with
        | none =>
          exact bind_preserves I _ _ (buildNested_preserves I hdir hname hfrag v _ _ h2)
            (fun t3 h3 => build_preserves I hdir hname hfrag rest _ t3 h3)
        | some p =>
          simp only []
          split
          · exact bind_preserves I _ _ (hfrag _ _ _ _ _ _ h2)
              (fun t3 h3 => build_preserves I hdir hname hfrag rest _ t3 h3)
          · exact bind_preserves I _ _ (buildNested_preserves I hdir hname hfrag v _ _ h2)
              (fun t3 h3 => build_preserves I hdir hname hfrag rest _ t3 h3)
      · exact bind_preserves I _ _ (hfrag _ _ _ _ _ _ h2)
          (fun t3 h3 => build_preserves I hdir hname hfrag rest _ t3 h3)
/-- The same for the recursive call on a nested value. -/
theorem buildNested_preserves (I : Tables → Prop)
    (hdir : ∀ (k : String) (t : Tables) (r : String × String × Tables),
      functionDirective k t = .ok r → I t → I r.2.2)
    (hname : ∀ (t : Tables) (k : String), I t →
      I { t with expressionAttributeNames := GoMap.assign t.expressionAttributeNames ("#" ++ k) k })
    (hfrag : ∀ (p : Option (List String)) (b : Bool) (fn k : String) (v : Value) (t : Tables),
      I t → I (buildFragment p b fn k v t).2) :
    ∀ (v : Value) (parentName : Option (List String)) (t : Tables),
      I t → I (buildNested parentName v t).2
  | .map m, parentName, t, h => by
    rw [buildNested]
    exact build_preserves I hdir hname hfrag m parentName t h
  | .null, _, t, h => by simpa [buildNested] using h
  | .bool _, _, t, h => by simpa [buildNested] using h
  | .str _, _, t, h => by simpa [buildNested] using h
  | .int _, _, t, h => by simpa [buildNested] using h
  | .time _, _, t, h => by simpa [buildNested] using h
end

mutual
/-- A property that holds of every error a single entry can raise holds of the error of the
whole call, nested maps included. -/
theorem build_error (E : String → Prop)
    (hdir : ∀ (k : String) (t : Tables) (e : String), functionDirective k t = .error e → E e)
    (hfrag : ∀ (p : Option (List String)) (b : Bool) (fn k : String) (v : Value) (t : Tables)
      (e : String), (buildFragment p b fn k v t).1 = some e → E e) :
    ∀ (m : List (String × Value)) (parentName : Option (List String)) (t : Tables) (e : String),
      (buildExpressionAttributeNamesAndValue parentName m t).1 = some e → E e
  | [], parentName, t, e, h => by
    rw [buildExpressionAttributeNamesAndValue] at h
    cases h
  | (k0, v) :: rest, parentName, t, e, h => by
    rw [buildExpressionAttributeNamesAndValue] at h
    cases hd : (if decide (0 = strings.Index k0 "Fn:") = true then functionDirective k0 t
        else Except.ok (k0, "", t)) with
    | error err =>
      simp only [hd] at h
      cases h
      split at hd
      · exact hdir _ _ _ hd
      · cases hd
    | ok r =>
      obtain ⟨k, functionName, t1⟩ := r
      simp only [hd] at h
      split at h
      · cases parentName with
        | none =>
          exact bind_error E _ _ (buildNested_error E hdir hfrag v _ _)
            (fun t3 e3 h3 => build_error E hdir hfrag rest _ t3 e3 h3) e h
        | some p =>
          simp only [] at h
          split at h
          · exact bind_error E _ _ (hfrag _ _ _ _ _ _)
              (fun t3 e3 h3 => build_error E hdir hfrag rest _ t3 e3 h3) e h
          · exact bind_error E _ _ (buildNested_error E hdir hfrag v _ _)
              (fun t3 e3 h3 => build_error E hdir hfrag rest _ t3 e3 h3) e h
      · exact bind_error E _ _ (hfrag _ _ _ _ _ _)
          (fun t3 e3 h3 => build_error E hdir hfrag rest _ t3 e3 h3) e h
/-- The same for the recursive call on a nested value. -/
theorem buildNested_error (E : String → Prop)
    (hdir : ∀ (k : String) (t : Tables) (e : String), functionDirective k t = .error e → E e)
    (hfrag : ∀ (p : Option (List String)) (b : Bool) (fn k : String) (v : Value) (t : Tables)
      (e : String), (buildFragment p b fn k v t).1 = some e → E e) :
    ∀ (v : Value) (parentName : Option (List String)) (t : Tables) (e : String),
      (buildNested parentName v t).1 = some e → E e
  | .map m, parentName, t, e, h => by
    rw [buildNested] at h
    exact build_error E hdir hfrag m parentName t e h
  | .null, _, t, e, h => by simp [buildNested] at h
  | .bool _, _, t, e, h => by simp [buildNested] at h
  | .str _, _, t, e, h => by simp [buildNested] at h
  | .int _, _, t, e, h => by simp [buildNested] at h
  | .time _, _, t, e, h => by simp [buildNested] at h
end

/-- The value tokens stay pairwise distinct through a call, whatever the field map. -/
theorem build_nodup_values (m : List (String × Value)) (parentName : Option (List String))
    (t : Tables) (h : (GoMap.keys t.expressionAttributeValues).Nodup) :
    (GoMap.keys (buildExpressionAttributeNamesAndValue parentName m
      t).2.expressionAttributeValues).Nodup := by
  refine build_preserves (fun t => (GoMap.keys t.expressionAttributeValues).Nodup) ?_ ?_ ?_ m
    parentName t h
  · intro k t r hr hn
    unfold functionDirective at hr
    split at hr
    · split at hr
      · cases hr; exact hn
      · split at hr
        · cases hr; exact GoMap.nodup_keys_assign _ _ _ hn
        · cases hr
    · cases hr
  · intro t k hn
    exact hn
  · intro p b fn k v t hn
    unfold buildFragment
    simp only []
    split
    · split <;> exact GoMap.nodup_keys_assign _ _ _ hn
    · exact GoMap.nodup_keys_assign _ _ _ hn

theorem unsupportedFunctionFormat_injective (k k' : String)
    (h : unsupportedFunctionFormat k = unsupportedFunctionFormat k') : k = k' := by
  have := congrArg String.data h
  simp [unsupportedFunctionFormat, String.data_append] at this
  exact String.ext this

theorem format_ne_name (k k' : String) :
    unsupportedFunctionFormat k ≠ unsupportedFunctionName k' := by
  intro h
  have := congrArg String.data h
  simp [unsupportedFunctionFormat, unsupportedFunctionName, String.data_append] at this

/-- Every error of a call is the unsupported-function-name error of some key or function name,
or the format error of a key that does not split into exactly three segments. -/
theorem build_error_kinds (m : List (String × Value)) (parentName : Option (List String))
    (t : Tables) (e : String)
    (h : (buildExpressionAttributeNamesAndValue parentName m t).1 = some e) :
    (∃ k0 : String, e = unsupportedFunctionName k0) ∨
      (∃ k0 : String, (strings.Split k0 ':').length ≠ 3 ∧ e = unsupportedFunctionFormat k0) := by
  refine build_error (fun e => (∃ k0 : String, e = unsupportedFunctionName k0) ∨
      (∃ k0 : String, (strings.Split k0 ':').length ≠ 3 ∧ e = unsupportedFunctionFormat k0))
    ?_ ?_ m parentName t e h
  · intro k t e he
    unfold functionDirective at he
    split at he
    · split at he
      · cases he
      · split at he
        · cases he
        · cases he
          exact Or.inl ⟨k, rfl⟩
    · rename_i hne
      cases he
      refine Or.inr ⟨k, ?_, rfl⟩
      intro hlen
      obtain ⟨a, fn, field, hs⟩ := List.length_eq_three.1 hlen
      exact hne a fn field hs
  · intro p b fn k v t e he
    unfold buildFragment at he
    simp only [] at he
    split at he
    · split at he
      · cases he
      · rename_i err herr
        cases he
        unfold buildFunctionForExpressionAttributeNamesAndValue at herr
        split at herr
        · cases herr
        · split at herr
          · cases herr
          · split at herr
            · cases herr
            · cases herr
              exact Or.inl ⟨fn, rfl⟩
    · cases he

theorem zero_token_ne (F : String) (hF : F ≠ "_Zero") : (":_Zero" : String) ≠ ":" ++ F := by
  intro h
  apply hF
  have := congrArg String.data h
  simp [String.data_append] at this
  exact String.ext (by simp [← this])

/-- A map of counter directives compiles without error from tables whose value tokens are
pairwise distinct; afterwards the value tokens are still pairwise distinct and, when the map is
not empty, `:_Zero` is among them. -/
theorem build_counterDirectives (ds : List (Bool × String × Value))
    (hds : ∀ x ∈ ds, ':' ∉ x.2.1.data) :
    ∀ t : Tables, (GoMap.keys t.expressionAttributeValues).Nodup →
      (buildExpressionAttributeNamesAndValue none (counterDirectives ds) t).1 = none ∧
      (GoMap.keys (buildExpressionAttributeNamesAndValue none (counterDirectives ds)
        t).2.expressionAttributeValues).Nodup ∧
      ((ds ≠ [] ∨ ":_Zero" ∈ GoMap.keys t.expressionAttributeValues) →
        ":_Zero" ∈ GoMap.keys (buildExpressionAttributeNamesAndValue none (counterDirectives ds)
          t).2.expressionAttributeValues) := by
  induction ds with
  | nil =>
    intro t ht
    simp [counterDirectives, buildExpressionAttributeNamesAndValue, ht]
  | cons x ds ih =>
    intro t ht
    obtain ⟨inc, F, d⟩ := x
    have hF : ':' ∉ F.data := hds (inc, F, d) (by simp)
    have hrest : ∀ y ∈ ds, ':' ∉ y.2.1.data := fun y hy => hds y (by simp [hy])
    have hstep := build_cons_counter inc F d (counterDirectives ds) t hF
    simp only [counterDirectives, List.map_cons] at hstep ⊢
    rw [hstep]
    have h := ih hrest
      { expressionAttributeNames := GoMap.assign t.expressionAttributeNames ("#" ++ F) F
        expressionAttributeValues :=
          GoMap.assign (GoMap.assign t.expressionAttributeValues ":_Zero" (.int 0)) (":" ++ F) d
        expressionNamesAndValues :=
          GoMap.assign t.expressionNamesAndValues ("#" ++ F)
            (if inc then "if_not_exists(" ++ F ++ ", :_Zero) + :" ++ F
              else "if_not_exists(" ++ F ++ ", :_Zero) - :" ++ F) }
      (GoMap.nodup_keys_assign _ (":" ++ F) d
        (GoMap.nodup_keys_assign t.expressionAttributeValues ":_Zero" (.int 0) ht))
    simp only [counterDirectives] at h
    refine ⟨h.1, h.2.1, fun _ => h.2.2 (Or.inr ?_)⟩
    exact GoMap.mem_keys_assign_of_mem _ _ _ _ (GoMap.mem_keys_assign_self _ _ _)

/-- C8 on the spec's example `Fn:increase:Count` with delta 5: the call succeeds with the name
`#Count -> Count`, the values `:_Zero -> 0` and `:Count -> 5` and the target `#Count`, as the
claim says, but the right-hand side of the fragment is `if_not_exists(Count, :_Zero) + :Count`:
line 541 writes the bare field name inside `if_not_exists`, not the placeholder `#Count` that
line 485 registered. -/
theorem increase_fragment_has_bare_field_name :
    buildExpressionAttributeNamesAndValue none [("Fn:increase:Count", .int 5)] ⟨[], [], []⟩ =
      (none,
        { expressionAttributeNames := [("#Count", "Count")]
          expressionAttributeValues := [(":_Zero", .int 0), (":Count", .int 5)]
          expressionNamesAndValues := [("#Count", "if_not_exists(Count, :_Zero) + :Count")] }) ∧
    GoMap.lookup (buildExpressionAttributeNamesAndValue none [("Fn:increase:Count", .int 5)]
        ⟨[], [], []⟩).2.expressionNamesAndValues "#Count" ≠
      some "if_not_exists(#Count, :_Zero) + :Count" :=
  ⟨rfl, by decide⟩

/-- What the builder does with counter directives, for every field name `F` without `:` and
every delta `d`: the single-entry map `Fn:increase:F` compiles without error to the target `#F`
with the text `if_not_exists(F, :_Zero) + :F` (`-` for `Fn:decrease:F`), the name `#F -> F`, and
the value table obtained by assigning `:_Zero` and then `:F`; a map of several increase and
decrease directives `ds` compiles without error to a value table with exactly one `:_Zero`
entry; and for every field map `m` whatever the value table never holds more than one `:_Zero`
entry. -/
theorem counter_directive_fragment (F : String) (d : Value) (hF : ':' ∉ F.data)
    (ds : List (Bool × String × Value)) (hds : ∀ x ∈ ds, ':' ∉ x.2.1.data) (hne : ds ≠ [])
    (m : List (String × Value)) (parentName : Option (List String)) :
    buildExpressionAttributeNamesAndValue none [("Fn:increase:" ++ F, d)] ⟨[], [], []⟩ =
      (none,
        { expressionAttributeNames := [("#" ++ F, F)]
          expressionAttributeValues := GoMap.assign [(":_Zero", .int 0)] (":" ++ F) d
          expressionNamesAndValues :=
            [("#" ++ F, "if_not_exists(" ++ F ++ ", :_Zero) + :" ++ F)] }) ∧
    buildExpressionAttributeNamesAndValue none [("Fn:decrease:" ++ F, d)] ⟨[], [], []⟩ =
      (none,
        { expressionAttributeNames := [("#" ++ F, F)]
          expressionAttributeValues := GoMap.assign [(":_Zero", .int 0)] (":" ++ F) d
          expressionNamesAndValues :=
            [("#" ++ F, "if_not_exists(" ++ F ++ ", :_Zero) - :" ++ F)] }) ∧
    (F ≠ "_Zero" →
      GoMap.assign [(":_Zero", Value.int 0)] (":" ++ F) d = [(":_Zero", .int 0), (":" ++ F, d)]) ∧
    (buildExpressionAttributeNamesAndValue none (counterDirectives ds) ⟨[], [], []⟩).1 = none ∧
    (GoMap.keys (buildExpressionAttributeNamesAndValue none (counterDirectives ds)
      ⟨[], [], []⟩).2.expressionAttributeValues).count ":_Zero" = 1 ∧
    (GoMap.keys (buildExpressionAttributeNamesAndValue parentName m
      ⟨[], [], []⟩).2.expressionAttributeValues).count ":_Zero" ≤ 1 := by
  refine ⟨?_, ?_, ?_, ?_, ?_, ?_⟩
  · have h := build_cons_counter true F d [] ⟨[], [], []⟩ hF
    simpa [buildExpressionAttributeNamesAndValue, GoMap.assign] using h
  · have h := build_cons_counter false F d [] ⟨[], [], []⟩ hF
    simpa [buildExpressionAttributeNamesAndValue, GoMap.assign] using h
  · intro hZ
    simp [GoMap.assign, zero_token_ne F hZ]
  · exact (build_counterDirectives ds hds ⟨[], [], []⟩ (by simp [GoMap.keys])).1
  · have h := build_counterDirectives ds hds ⟨[], [], []⟩ (by simp [GoMap.keys])
    exact List.count_eq_one_of_mem h.2.1 (h.2.2 (Or.inl hne))
  · exact List.nodup_iff_count_le_one.1
      (build_nodup_values m parentName ⟨[], [], []⟩ (by simp [GoMap.keys])) ":_Zero"

/-- The preceding theorem at `Fn:increase:Count` with delta 5, and at the two-entry map
`Fn:increase:Count`, `Fn:decrease:Stock`. -/
theorem counter_directive_fragment_witness :
    buildExpressionAttributeNamesAndValue none [("Fn:increase:Count", .int 5)] ⟨[], [], []⟩ =
      (none,
        { expressionAttributeNames := [("#Count", "Count")]
          expressionAttributeValues := [(":_Zero", .int 0), (":Count", .int 5)]
          expressionNamesAndValues := [("#Count", "if_not_exists(Count, :_Zero) + :Count")] }) ∧
    (GoMap.keys (buildExpressionAttributeNamesAndValue none
      [("Fn:increase:Count", .int 5), ("Fn:decrease:Stock", .int 2)]
      ⟨[], [], []⟩).2.expressionAttributeValues).count ":_Zero" = 1 :=
  ⟨(counter_directive_fragment "Count" (.int 5) (by decide)
      [(true, "Count", .int 5), (false, "Stock", .int 2)] (by decide)
      (List.cons_ne_nil _ _) [] none).1,
    (counter_directive_fragment "Count" (.int 5) (by decide)
      [(true, "Count", .int 5), (false, "Stock", .int 2)] (by decide)
      (List.cons_ne_nil _ _) [] none).2.2.2.2.1⟩

/-- Running a continuation that fails with `e` where the shorter continuation succeeds. -/
theorem bind_failure (x : Option String × Tables) (f g : Tables → Option String × Tables)
    (e : String) (h : ∀ t, f t = match g t with
      | (some err, t') => (some err, t')
      | (none, t') => (some e, t')) :
    (match x with
      | (some err, t3) => (some err, t3)
      | (none, t3) => f t3) =
    match (match x with
        | (some err, t3) => (some err, t3)
        | (none, t3) => g t3) with
      | (some err, t') => (some err, t')
      | (none, t') => (some e, t') := by
  obtain ⟨err, t3⟩ := x
  cases err with
  | none => exact h t3
  | some err => rfl

/-- An entry whose visit always fails with `e` and leaves the tables untouched makes every
map that contains it fail: with the error and tables of an earlier entry when one of those
fails, else with `e` and the tables the earlier entries left. -/
theorem build_append_failing (entry : String × Value) (post : List (String × Value)) (e : String)
    (h : ∀ (parentName : Option (List String)) (t : Tables),
      buildExpressionAttributeNamesAndValue parentName (entry :: post) t = (some e, t))
    (pre : List (String × Value)) :
    ∀ (parentName : Option (List String)) (t : Tables),
      buildExpressionAttributeNamesAndValue parentName (pre ++ entry :: post) t =
        match buildExpressionAttributeNamesAndValue parentName pre t with
        | (some err, t') => (some err, t')
        | (none, t') => (some e, t') := by
  induction pre with
  | nil =>
    intro parentName t
    rw [List.nil_append, h parentName t]
    simp [buildExpressionAttributeNamesAndValue]
  | cons e0 pre ih =>
    intro parentName t
    obtain ⟨k0, v0⟩ := e0
    rw [List.cons_append, buildExpressionAttributeNamesAndValue,
      buildExpressionAttributeNamesAndValue]
    cases hd : (if decide (0 = strings.Index k0 "Fn:") = true then functionDirective k0 t
        else Except.ok (k0, "", t)) with
    | error err => simp [hd]
    | ok r =>
      obtain ⟨k, functionName, t1⟩ := r
      simp only [hd]
      split
      · cases parentName with
        | none => exact bind_failure _ _ _ _ (ih _)
        | some p =>
          simp only []
          split
          · exact bind_failure _ _ _ _ (ih _)
          · exact bind_failure _ _ _ _ (ih _)
      · exact bind_failure _ _ _ _ (ih _)

/-- Visiting a key that starts with `Fn:` and does not have exactly three segments returns the
error of line 480 and leaves the tables untouched. -/
theorem build_cons_malformed (parentName : Option (List String)) (r : String) (v : Value)
    (rest : List (String × Value)) (t : Tables)
    (hlen : (strings.Split ("Fn:" ++ r) ':').length ≠ 3) :
    buildExpressionAttributeNamesAndValue parentName (("Fn:" ++ r, v) :: rest) t =
      (some (unsupportedFunctionFormat ("Fn:" ++ r)), t) := by
  have hd : functionDirective ("Fn:" ++ r) t =
      .error (unsupportedFunctionFormat ("Fn:" ++ r)) := by
    unfold functionDirective
    split
    · rename_i h
      rw [h] at hlen
      simp at hlen
    · rfl
  rw [buildExpressionAttributeNamesAndValue]
  simp only [isFunction_Fn, if_true, hd]

/-- C9, as stated, fails on the map with entries `A` and `Fn:foo:X` visited in that order:
the call fails with the unsupported-function error, and the tables are not as before the
call, they hold the name, the value and the fragment of `A`. -/
theorem unsupported_function_leaves_earlier_entries :
    (buildExpressionAttributeNamesAndValue none [("A", .int 5), ("Fn:foo:X", .int 2)]
        ⟨[], [], []⟩).1 = some "unsupported function name (Fn:foo:X)" ∧
    (buildExpressionAttributeNamesAndValue none [("A", .int 5), ("Fn:foo:X", .int 2)]
        ⟨[], [], []⟩).2.expressionAttributeNames = [("#A", "A")] ∧
    GoMap.keys (buildExpressionAttributeNamesAndValue none [("A", .int 5), ("Fn:foo:X", .int 2)]
        ⟨[], [], []⟩).2.expressionAttributeValues = [":A"] ∧
    (buildExpressionAttributeNamesAndValue none [("A", .int 5), ("Fn:foo:X", .int 2)]
        ⟨[], [], []⟩).2.expressionNamesAndValues = [("#A", ":A")] := by
  decide

/-- C9 amended: for every field map that contains a directive `Fn:<name>:<field>` with `<name>`
outside list_append, increase, decrease, in every visiting order (`pre` are the entries visited
before the directive, `post` those after it), the call fails. When an entry of `pre` fails, its
error and tables are the result; otherwise the error is the unsupported-function error naming
the directive and the tables are exactly those the entries of `pre` left: nothing is registered
for the directive or for `post`, and everything registered for `pre` stays. -/
theorem unsupported_function_fails_after_earlier_entries (name field : String) (v : Value)
    (post : List (String × Value))
    (hname : name ∉ ["list_append", "increase", "decrease"])
    (hn : ':' ∉ name.data) (hf : ':' ∉ field.data) (pre : List (String × Value)) :
    ∀ (parentName : Option (List String)) (t : Tables),
      buildExpressionAttributeNamesAndValue parentName
          (pre ++ ("Fn:" ++ name ++ ":" ++ field, v) :: post) t =
        match buildExpressionAttributeNamesAndValue parentName pre t with
        | (some err, t') => (some err, t')
        | (none, t') => (some (unsupportedFunctionName ("Fn:" ++ name ++ ":" ++ field)), t') :=
  build_append_failing _ post _
    (fun parentName t => build_cons_unknown parentName name field v post t hname hn hf) pre

/-- C9 amended on the map `Fn:foo:X`, `A`: with the directive visited first the tables are
untouched; with `A` visited first they hold what `A` registered. -/
theorem unsupported_function_fails_after_earlier_entries_witness :
    buildExpressionAttributeNamesAndValue none [("Fn:foo:X", .int 2), ("A", .int 5)]
        ⟨[], [], []⟩ = (some "unsupported function name (Fn:foo:X)", ⟨[], [], []⟩) ∧
    buildExpressionAttributeNamesAndValue none [("A", .int 5), ("Fn:foo:X", .int 2)]
        ⟨[], [], []⟩ =
      (some "unsupported function name (Fn:foo:X)",
        ⟨[("#A", "A")], [(":A", .int 5)], [("#A", ":A")]⟩) :=
  ⟨unsupported_function_fails_after_earlier_entries "foo" "X" (.int 2) [("A", .int 5)]
      (by decide) (by decide) (by decide) [] none ⟨[], [], []⟩,
    unsupported_function_fails_after_earlier_entries "foo" "X" (.int 2) []
      (by decide) (by decide) (by decide) [("A", .int 5)] none ⟨[], [], []⟩⟩

/-- C10: a key that starts with `Fn:` and does not split on `:` into exactly three segments
makes the call fail with the error `unsupported function format (<key>)` as soon as it is
visited, the tables staying as the entries visited before it (`pre`) left them (an earlier
failing entry returns its own error first); visiting a key that starts with `Fn:` and has
exactly three segments either returns the unsupported-function-name error for that key or goes
on with the rest of the map; for every field map `m` whatever (nested maps, any visiting order)
and every key `k` with exactly three segments, the call never returns the format error for `k`;
and the format error is never equal to an unsupported-function-name error. -/
theorem malformed_directive_iff_not_three_segments (parentName : Option (List String))
    (r : String) (v : Value) (pre rest : List (String × Value)) (t : Tables)
    (m : List (String × Value)) (k : String) :
    ((strings.Split ("Fn:" ++ r) ':').length ≠ 3 →
      buildExpressionAttributeNamesAndValue parentName (pre ++ ("Fn:" ++ r, v) :: rest) t =
        match buildExpressionAttributeNamesAndValue parentName pre t with
        | (some err, t') => (some err, t')
        | (none, t') => (some (unsupportedFunctionFormat ("Fn:" ++ r)), t')) ∧
    ((strings.Split ("Fn:" ++ r) ':').length = 3 →
      buildExpressionAttributeNamesAndValue parentName (("Fn:" ++ r, v) :: rest) t =
          (some (unsupportedFunctionName ("Fn:" ++ r)), t) ∨
        ∃ t' : Tables,
          buildExpressionAttributeNamesAndValue parentName (("Fn:" ++ r, v) :: rest) t =
            buildExpressionAttributeNamesAndValue parentName rest t') ∧
    ((strings.Split k ':').length = 3 →
      (buildExpressionAttributeNamesAndValue parentName m t).1 ≠
        some (unsupportedFunctionFormat k)) ∧
    (∀ k k' : String, unsupportedFunctionFormat k ≠ unsupportedFunctionName k') := by
  refine ⟨?_, ?_, ?_, format_ne_name⟩
  rotate_left 2
  · intro hlen h
    rcases build_error_kinds m parentName t _ h with ⟨k0, h0⟩ | ⟨k0, hne, h0⟩
    · exact format_ne_name k k0 h0
    · rw [unsupportedFunctionFormat_injective k k0 h0] at hlen
      exact hne hlen
  · intro hlen
    exact build_append_failing _ rest _
      (fun p t0 => build_cons_malformed p r v rest t0 hlen) pre parentName t
  · intro hlen
    obtain ⟨a, functionName, field, hs⟩ := List.length_eq_three.1 hlen
    rw [buildExpressionAttributeNamesAndValue]
    simp only [isFunction_Fn, if_true, functionDirective, hs]
    by_cases h1 : functionName = "list_append"
    · right
      subst h1
      simp only [if_true, Bool.not_true, Bool.false_and]
      simp [buildFragment, buildFunctionForExpressionAttributeNamesAndValue]
    · by_cases h2 : functionName = "increase"
      · right
        subst h2
        simp [buildFragment, buildFunctionForExpressionAttributeNamesAndValue]
      · by_cases h3 : functionName = "decrease"
        · right
          subst h3
          simp [buildFragment, buildFunctionForExpressionAttributeNamesAndValue]
        · left
          simp [h1, h2, h3]

/-- C10 at the keys `Fn:foo` (two segments), `Fn:a:b:c` (four segments) and `Fn:increase:N`
(three segments, at top level and inside a nested map). -/
theorem malformed_directive_iff_not_three_segments_witness :
    buildExpressionAttributeNamesAndValue none [("Fn:foo", .int 1)] ⟨[], [], []⟩ =
        (some "unsupported function format (Fn:foo)", ⟨[], [], []⟩) ∧
    buildExpressionAttributeNamesAndValue none [("Fn:a:b:c", .int 1)] ⟨[], [], []⟩ =
        (some "unsupported function format (Fn:a:b:c)", ⟨[], [], []⟩) ∧
    (buildExpressionAttributeNamesAndValue none [("Fn:increase:N", .int 1)] ⟨[], [], []⟩ =
          (some (unsupportedFunctionName "Fn:increase:N"), ⟨[], [], []⟩) ∨
      ∃ t' : Tables,
        buildExpressionAttributeNamesAndValue none [("Fn:increase:N", .int 1)] ⟨[], [], []⟩ =
          buildExpressionAttributeNamesAndValue none [] t') ∧
    (buildExpressionAttributeNamesAndValue none
        [("P", .map [("Fn:increase:N", .int 1), ("Fn:foo", .int 2)])] ⟨[], [], []⟩).1 ≠
      some (unsupportedFunctionFormat "Fn:increase:N") :=
  ⟨(malformed_directive_iff_not_three_segments none "foo" (.int 1) [] [] ⟨[], [], []⟩ []
      "").1 (by decide),
    (malformed_directive_iff_not_three_segments none "a:b:c" (.int 1) [] [] ⟨[], [], []⟩ []
      "").1 (by decide),
    (malformed_directive_iff_not_three_segments none "increase:N" (.int 1) [] []
      ⟨[], [], []⟩ [] "").2.1 (by decide),
    (malformed_directive_iff_not_three_segments none "" (.int 1) [] [] ⟨[], [], []⟩
      [("P", .map [("Fn:increase:N", .int 1), ("Fn:foo", .int 2)])] "Fn:increase:N").2.2.1
      (by decide)⟩

/-! ## Update-expression builder: nested maps -/

namespace strings

theorem indexChars_eq_zero (sub l : List Char) :
    indexChars sub l = 0 ↔ sub.isPrefixOf l = true := by
  cases l with
  | nil =>
    cases sub <;> simp [indexChars, List.isPrefixOf]
  | cons c cs =>
    unfold indexChars
    by_cases h : sub.isPrefixOf (c :: cs) = true
    · simp [h]
    · simp only [h, if_false, Bool.false_eq_true, iff_false]
      split <;> omega

theorem Index_eq_zero (s substr : String) :
    0 = Index s substr ↔ ∃ r : String, s = substr ++ r := by
  unfold Index
  rw [eq_comm, indexChars_eq_zero, List.isPrefixOf_iff_prefix]
  constructor
  · rintro ⟨t, ht⟩
    exact ⟨String.mk t, String.ext (by simp [ht])⟩
  · rintro ⟨r, rfl⟩
    exact ⟨r.data, by simp⟩

theorem Join_pair (a b sep : String) : Join [a, b] sep = a ++ sep ++ b := by
  apply String.ext
  simp [Join, joinChars, String.data_append]

end strings

/-- A key whose characters do not begin with `Fn:` is a plain key. -/
theorem plain_key (k : String) (h : ("Fn:" : String).data.isPrefixOf k.data = false) :
    ∀ r : String, k ≠ "Fn:" ++ r := by
  intro r hr
  have hp : ("Fn:" : String).data.isPrefixOf k.data = true := by
    rw [List.isPrefixOf_iff_prefix]
    exact ⟨r.data, by rw [hr]; simp⟩
  rw [h] at hp
  exact absurd hp (by decide)

theorem isFunction_plain (k : String) (hk : ∀ r : String, k ≠ "Fn:" ++ r) :
    decide (0 = strings.Index k "Fn:") = false := by
  simp only [decide_eq_false_iff_not]
  intro h
  obtain ⟨r, hr⟩ := (strings.Index_eq_zero k "Fn:").1 h
  exact hk r hr

theorem GoMap.assign_of_not_mem {V : Type} (m : GoMap V) (k : String) (v : V)
    (h : k ∉ GoMap.keys m) : GoMap.assign m k v = m ++ [(k, v)] := by
  induction m with
  | nil => rfl
  | cons e rest ih =>
    obtain ⟨k', v'⟩ := e
    simp only [GoMap.keys, List.map_cons, List.mem_cons, not_or] at h
    have h1 : ¬ k' = k := fun e => h.1 e.symm
    simp only [GoMap.assign, h1, if_false, List.cons_append]
    rw [ih h.2]

/-- Visiting a plain key inside a nested map (`parentName` set and not empty): the name, the
value under the joined token and the fragment under the joined target are written, whatever
the value is, and the loop goes on. -/
theorem build_cons_child (p : List String) (hp : 1 ≤ p.length) (k : String) (v : Value)
    (rest : List (String × Value)) (t : Tables) (hk : ∀ r : String, k ≠ "Fn:" ++ r) :
    buildExpressionAttributeNamesAndValue (some p) ((k, v) :: rest) t =
      buildExpressionAttributeNamesAndValue (some p) rest
        { expressionAttributeNames := GoMap.assign t.expressionAttributeNames ("#" ++ k) k
          expressionAttributeValues :=
            GoMap.assign t.expressionAttributeValues (":" ++ strings.Join (p ++ [k]) "_") v
          expressionNamesAndValues :=
            GoMap.assign t.expressionNamesAndValues ("#" ++ strings.Join (p ++ [k]) ".#")
              (":" ++ strings.Join (p ++ [k]) "_") } := by
  rw [buildExpressionAttributeNamesAndValue]
  simp only [isFunction_plain k hk, Bool.false_eq_true, if_false, hp, if_true]
  cases hv : v.isMap <;> simp [buildFragment]

/-- Visiting a plain key with a nested map at top level: the name is written and the call
recurses into the map with `parentName` set to the key, for the rest of the loop too. -/
theorem build_cons_nested (k : String) (children rest : List (String × Value)) (t : Tables)
    (hk : ∀ r : String, k ≠ "Fn:" ++ r) :
    buildExpressionAttributeNamesAndValue none ((k, .map children) :: rest) t =
      match buildExpressionAttributeNamesAndValue (some [k]) children
          { t with expressionAttributeNames :=
              GoMap.assign t.expressionAttributeNames ("#" ++ k) k } with
      | (some err, t3) => (some err, t3)
      | (none, t3) => buildExpressionAttributeNamesAndValue (some [k]) rest t3 := by
  rw [buildExpressionAttributeNamesAndValue]
  simp only [isFunction_plain k hk, Bool.false_eq_true, if_false]
  simp [Value.isMap, buildNested]

/-- Visiting a plain key with a value that is not a map at top level, before any nested map
was visited. -/
theorem build_cons_plain (k : String) (v : Value) (rest : List (String × Value)) (t : Tables)
    (hk : ∀ r : String, k ≠ "Fn:" ++ r) (hv : v.isMap = false) :
    buildExpressionAttributeNamesAndValue none ((k, v) :: rest) t =
      buildExpressionAttributeNamesAndValue none rest
        { expressionAttributeNames := GoMap.assign t.expressionAttributeNames ("#" ++ k) k
          expressionAttributeValues := GoMap.assign t.expressionAttributeValues (":" ++ k) v
          expressionNamesAndValues :=
            GoMap.assign t.expressionNamesAndValues ("#" ++ k) (":" ++ k) } := by
  rw [buildExpressionAttributeNamesAndValue]
  simp only [isFunction_plain k hk, Bool.false_eq_true, if_false]
  simp [hv, buildFragment]

theorem childValueToken_eq (P k : String) :
    ":" ++ strings.Join ([P] ++ [k]) "_" = ":" ++ P ++ "_" ++ k := by
  rw [List.singleton_append, strings.Join_pair]
  exact String.ext (by simp [String.data_append])

theorem childTarget_eq (P k : String) :
    "#" ++ strings.Join ([P] ++ [k]) ".#" = "#" ++ P ++ ".#" ++ k := by
  rw [List.singleton_append, strings.Join_pair]
  exact String.ext (by simp [String.data_append])

theorem append_left_injective (a : String) {x y : String} (h : a ++ x = a ++ y) : x = y := by
  have := congrArg String.data h
  simp [String.data_append] at this
  exact String.ext this

/-- The children of a nested map under the parent `P`, all plain keys, pairwise distinct, with
tokens not yet in the tables: each child appends its value under `:P_<child>` and its fragment
`#P.#<child>` = `:P_<child>`, and registers its name. -/
theorem build_children (P : String) (children : List (String × Value))
    (hfn : ∀ c ∈ children, ∀ r : String, c.1 ≠ "Fn:" ++ r)
    (hnd : (GoMap.keys children).Nodup) :
    ∀ t : Tables,
      (∀ c ∈ children, ":" ++ P ++ "_" ++ c.1 ∉ GoMap.keys t.expressionAttributeValues) →
      (∀ c ∈ children, "#" ++ P ++ ".#" ++ c.1 ∉ GoMap.keys t.expressionNamesAndValues) →
      buildExpressionAttributeNamesAndValue (some [P]) children t =
        (none,
          { expressionAttributeNames :=
              children.foldl (fun ns c => GoMap.assign ns ("#" ++ c.1) c.1)
                t.expressionAttributeNames
            expressionAttributeValues :=
              t.expressionAttributeValues ++
                children.map (fun c => (":" ++ P ++ "_" ++ c.1, c.2))
            expressionNamesAndValues :=
              t.expressionNamesAndValues ++
                children.map (fun c => ("#" ++ P ++ ".#" ++ c.1, ":" ++ P ++ "_" ++ c.1)) }) := by
  induction children with
  | nil =>
    intro t _ _
    simp [buildExpressionAttributeNamesAndValue]
  | cons c children ih =>
    intro t hv hf
    obtain ⟨k, v⟩ := c
    have hk : ∀ r : String, k ≠ "Fn:" ++ r := hfn (k, v) (by simp)
    simp only [GoMap.keys, List.map_cons, List.nodup_cons] at hnd
    have hvk := hv (k, v) (by simp)
    have hfk := hf (k, v) (by simp)
    rw [build_cons_child [P] (by simp) k v children t hk, childValueToken_eq, childTarget_eq,
      GoMap.assign_of_not_mem _ _ _ hvk, GoMap.assign_of_not_mem _ _ _ hfk]
    rw [ih (fun c hc => hfn c (by simp [hc])) hnd.2]
    · simp
    · intro c hc
      simp only [GoMap.keys, List.map_append, List.map_cons, List.map_nil, List.mem_append,
        List.mem_singleton, not_or]
      refine ⟨hv c (by simp [hc]), ?_⟩
      intro he
      have : c.1 = k := append_left_injective _ he
      exact hnd.1 (by rw [← this]; exact List.mem_map_of_mem _ hc)
    · intro c hc
      simp only [GoMap.keys, List.map_append, List.map_cons, List.map_nil, List.mem_append,
        List.mem_singleton, not_or]
      refine ⟨hf c (by simp [hc]), ?_⟩
      intro he
      have : c.1 = k := append_left_injective _ he
      exact hnd.1 (by rw [← this]; exact List.mem_map_of_mem _ hc)

namespace GoMap

variable {V : Type}

theorem lookup_assign_self (m : GoMap V) (k : String) (v : V) :
    lookup (assign m k v) k = some v := by
  induction m with
  | nil => simp [assign, lookup]
  | cons e rest ih =>
    obtain ⟨k', v'⟩ := e
    by_cases h : k' = k
    · simp [assign, lookup, h]
    · simp [assign, lookup, h, ih]

theorem lookup_assign_of_ne (m : GoMap V) (k k' : String) (v : V) (h : k' ≠ k) :
    lookup (assign m k v) k' = lookup m k' := by
  induction m with
  | nil => simp [assign, lookup, h.symm]
  | cons e rest ih =>
    obtain ⟨k0, v0⟩ := e
    by_cases h0 : k0 = k
    · subst h0
      simp [assign, lookup, h.symm]
    · by_cases h1 : k0 = k'
      · subst h1
        simp [assign, lookup, h0]
      · simp [assign, lookup, h0, h1, ih]

theorem lookup_of_mem (m : GoMap V) (k : String) (v : V) (hnd : (keys m).Nodup)
    (h : (k, v) ∈ m) : lookup m k = some v := by
  induction m with
  | nil => simp at h
  | cons e rest ih =>
    obtain ⟨k0, v0⟩ := e
    simp only [keys, List.map_cons, List.nodup_cons] at hnd
    rcases List.mem_cons.1 h with h | h
    · cases h
      simp [lookup]
    · have hne : ¬ k0 = k := by
        intro e
        apply hnd.1
        rw [e]
        exact List.mem_map_of_mem Prod.fst h
      simp only [lookup, hne, if_false]
      exact ih hnd.2 h

theorem lookup_eq_none (m : GoMap V) (k : String) (h : k ∉ keys m) : lookup m k = none := by
  induction m with
  | nil => rfl
  | cons e rest ih =>
    obtain ⟨k0, v0⟩ := e
    simp only [keys, List.map_cons, List.mem_cons, not_or] at h
    have hne : ¬ k0 = k := fun e => h.1 e.symm
    simp only [lookup, hne, if_false]
    exact ih h.2

end GoMap

/-- Registering the names of a list of entries keeps a name that is already registered as
`#x -> x`, and registers `#c -> c` for every entry `c`. -/
theorem lookup_registered_names (children : List (String × Value)) :
    ∀ names : GoMap String,
      (∀ x : String, GoMap.lookup names ("#" ++ x) = some x →
        GoMap.lookup (children.foldl (fun ns c => GoMap.assign ns ("#" ++ c.1) c.1) names)
          ("#" ++ x) = some x) ∧
      (∀ c ∈ children,
        GoMap.lookup (children.foldl (fun ns c => GoMap.assign ns ("#" ++ c.1) c.1) names)
          ("#" ++ c.1) = some c.1) := by
  induction children with
  | nil => intro names; simp
  | cons c children ih =>
    intro names
    have hkeep : ∀ x : String, GoMap.lookup names ("#" ++ x) = some x →
        GoMap.lookup (GoMap.assign names ("#" ++ c.1) c.1) ("#" ++ x) = some x := by
      intro x hx
      by_cases h : x = c.1
      · subst h
        exact GoMap.lookup_assign_self _ _ _
      · rw [GoMap.lookup_assign_of_ne _ _ _ _ (fun e => h (append_left_injective _ e))]
        exact hx
    refine ⟨fun x hx => ?_, fun d hd => ?_⟩
    · exact (ih _).1 x (hkeep x hx)
    · rcases List.mem_cons.1 hd with h | h
      · subst h
        exact (ih _).1 d.1 (GoMap.lookup_assign_self _ _ _)
      · exact (ih _).2 d h

/-- C11: a field map with the single plain entry `P` whose value is a nested map of plain,
pairwise distinct child keys compiles without error; the value table is exactly one entry
`:P_<child>` per child bound to the child's value, the fragment table exactly one entry
`#P.#<child>` = `:P_<child>` per child, the name table holds `#P -> P` and `#<child> -> <child>`
for every child, and there is no value placeholder `:P` and no fragment `#P` for `P` itself. -/
theorem nested_map_children_fragments (P : String) (children : List (String × Value))
    (hP : ∀ r : String, P ≠ "Fn:" ++ r)
    (hfn : ∀ c ∈ children, ∀ r : String, c.1 ≠ "Fn:" ++ r)
    (hnd : (GoMap.keys children).Nodup) :
    buildExpressionAttributeNamesAndValue none [(P, .map children)] ⟨[], [], []⟩ =
      (none,
        { expressionAttributeNames :=
            children.foldl (fun ns c => GoMap.assign ns ("#" ++ c.1) c.1) [("#" ++ P, P)]
          expressionAttributeValues := children.map (fun c => (":" ++ P ++ "_" ++ c.1, c.2))
          expressionNamesAndValues :=
            children.map (fun c => ("#" ++ P ++ ".#" ++ c.1, ":" ++ P ++ "_" ++ c.1)) }) ∧
    GoMap.lookup (buildExpressionAttributeNamesAndValue none [(P, .map children)]
      ⟨[], [], []⟩).2.expressionAttributeNames ("#" ++ P) = some P ∧
    (∀ c ∈ children,
      GoMap.lookup (buildExpressionAttributeNamesAndValue none [(P, .map children)]
          ⟨[], [], []⟩).2.expressionAttributeNames ("#" ++ c.1) = some c.1 ∧
      GoMap.lookup (buildExpressionAttributeNamesAndValue none [(P, .map children)]
          ⟨[], [], []⟩).2.expressionAttributeValues (":" ++ P ++ "_" ++ c.1) = some c.2 ∧
      GoMap.lookup (buildExpressionAttributeNamesAndValue none [(P, .map children)]
          ⟨[], [], []⟩).2.expressionNamesAndValues ("#" ++ P ++ ".#" ++ c.1) =
        some (":" ++ P ++ "_" ++ c.1)) ∧
    GoMap.lookup (buildExpressionAttributeNamesAndValue none [(P, .map children)]
      ⟨[], [], []⟩).2.expressionAttributeValues (":" ++ P) = none ∧
    GoMap.lookup (buildExpressionAttributeNamesAndValue none [(P, .map children)]
      ⟨[], [], []⟩).2.expressionNamesAndValues ("#" ++ P) = none := by
  have hrun : buildExpressionAttributeNamesAndValue none [(P, .map children)] ⟨[], [], []⟩ =
      (none,
        { expressionAttributeNames :=
            children.foldl (fun ns c => GoMap.assign ns ("#" ++ c.1) c.1) [("#" ++ P, P)]
          expressionAttributeValues := children.map (fun c => (":" ++ P ++ "_" ++ c.1, c.2))
          expressionNamesAndValues :=
            children.map (fun c => ("#" ++ P ++ ".#" ++ c.1, ":" ++ P ++ "_" ++ c.1)) }) := by
    rw [build_cons_nested P children [] ⟨[], [], []⟩ hP]
    rw [build_children P children hfn hnd _ (by simp [GoMap.keys]) (by simp [GoMap.keys])]
    simp [buildExpressionAttributeNamesAndValue, GoMap.assign]
  have hvalues : (GoMap.keys (children.map
      (fun c => (":" ++ P ++ "_" ++ c.1, c.2)))).Nodup := by
    have : GoMap.keys (children.map (fun c => (":" ++ P ++ "_" ++ c.1, c.2))) =
        (GoMap.keys children).map (fun k => ":" ++ P ++ "_" ++ k) := by
      simp [GoMap.keys, List.map_map, Function.comp_def]
    rw [this]
    exact List.Nodup.map (fun a b h => append_left_injective _ h) hnd
  have hfrags : (GoMap.keys (children.map
      (fun c => ("#" ++ P ++ ".#" ++ c.1, ":" ++ P ++ "_" ++ c.1)))).Nodup := by
    have : GoMap.keys (children.map
        (fun c => ("#" ++ P ++ ".#" ++ c.1, ":" ++ P ++ "_" ++ c.1))) =
        (GoMap.keys children).map (fun k => "#" ++ P ++ ".#" ++ k) := by
      simp [GoMap.keys, List.map_map, Function.comp_def]
    rw [this]
    exact List.Nodup.map (fun a b h => append_left_injective _ h) hnd
  have hnames := lookup_registered_names children [("#" ++ P, P)]
  refine ⟨hrun, ?_, ?_, ?_, ?_⟩
  · rw [hrun]
    exact hnames.1 P (by simp [GoMap.lookup])
  · intro c hc
    rw [hrun]
    refine ⟨hnames.2 c hc, ?_, ?_⟩
    · exact GoMap.lookup_of_mem _ _ _ hvalues (List.mem_map_of_mem _ hc)
    · exact GoMap.lookup_of_mem _ _ _ hfrags
        (List.mem_map_of_mem (fun c => ("#" ++ P ++ ".#" ++ c.1, ":" ++ P ++ "_" ++ c.1)) hc)
  · rw [hrun]
    apply GoMap.lookup_eq_none
    simp only [GoMap.keys, List.map_map, List.mem_map, Function.comp_def, not_exists, not_and]
    intro c _ he
    have := congrArg String.data he
    simp [String.data_append] at this
  · rw [hrun]
    apply GoMap.lookup_eq_none
    simp only [GoMap.keys, List.map_map, List.mem_map, Function.comp_def, not_exists, not_and]
    intro c _ he
    have := congrArg String.data he
    simp [String.data_append] at this

/-- C11 on the map `Address: (City: x, Zip: 7)`. -/
theorem nested_map_children_fragments_witness :
    buildExpressionAttributeNamesAndValue none
        [("Address", .map [("City", .str "x"), ("Zip", .int 7)])] ⟨[], [], []⟩ =
      (none,
        { expressionAttributeNames :=
            [("#Address", "Address"), ("#City", "City"), ("#Zip", "Zip")]
          expressionAttributeValues := [(":Address_City", .str "x"), (":Address_Zip", .int 7)]
          expressionNamesAndValues :=
            [("#Address.#City", ":Address_City"), ("#Address.#Zip", ":Address_Zip")] }) :=
  (nested_map_children_fragments "Address" [("City", .str "x"), ("Zip", .int 7)]
    (plain_key "Address" (by decide))
    (by
      intro c hc
      simp only [List.mem_cons, List.mem_singleton, List.not_mem_nil, or_false] at hc
      rcases hc with rfl | rfl
      · exact plain_key "City" (by decide)
      · exact plain_key "Zip" (by decide))
    (by decide)).1

/-- C19: for plain keys `A` and `B` and any map `m`, the field map `A: (B: m)` compiles without
error and without recursing into `m`: the only fragment is `#A.#B` = `:A_B`, the only value
placeholder is `:A_B` bound to the whole map `m`, and the names are `#A -> A` and `#B -> B`;
nothing is registered for the keys of `m`. -/
theorem deeper_nesting_collapses (A B : String) (m : List (String × Value))
    (hA : ∀ r : String, A ≠ "Fn:" ++ r) (hB : ∀ r : String, B ≠ "Fn:" ++ r) :
    buildExpressionAttributeNamesAndValue none [(A, .map [(B, .map m)])] ⟨[], [], []⟩ =
      (none,
        { expressionAttributeNames := GoMap.assign [("#" ++ A, A)] ("#" ++ B) B
          expressionAttributeValues := [(":" ++ A ++ "_" ++ B, .map m)]
          expressionNamesAndValues := [("#" ++ A ++ ".#" ++ B, ":" ++ A ++ "_" ++ B)] }) := by
  rw [build_cons_nested A [(B, .map m)] [] ⟨[], [], []⟩ hA]
  rw [build_children A [(B, .map m)] (by simpa using hB) (by simp [GoMap.keys]) _
    (by simp [GoMap.keys]) (by simp [GoMap.keys])]
  simp [buildExpressionAttributeNamesAndValue, GoMap.assign]

/-- C19 on the map `A: (B: (C: 1, Fn:bad: 2))`: the inner map is not visited, not even its
malformed directive. -/
theorem deeper_nesting_collapses_witness :
    buildExpressionAttributeNamesAndValue none
        [("A", .map [("B", .map [("C", .int 1), ("Fn:bad", .int 2)])])] ⟨[], [], []⟩ =
      (none,
        { expressionAttributeNames := [("#A", "A"), ("#B", "B")]
          expressionAttributeValues := [(":A_B", .map [("C", .int 1), ("Fn:bad", .int 2)])]
          expressionNamesAndValues := [("#A.#B", ":A_B")] }) :=
  deeper_nesting_collapses "A" "B" [("C", .int 1), ("Fn:bad", .int 2)]
    (plain_key "A" (by decide)) (plain_key "B" (by decide))

/-- C15 on the map `P: (Fn:increase:N: 1)`: the call succeeds, the right-hand side of the
fragment `#P.#N` mentions the value token `:N`, and the value table has no entry `:N`; the
delta is registered under `:P_N`. -/
theorem nested_directive_value_token_unregistered :
    buildExpressionAttributeNamesAndValue none [("P", .map [("Fn:increase:N", .int 1)])]
        ⟨[], [], []⟩ =
      (none,
        { expressionAttributeNames := [("#P", "P"), ("#N", "N")]
          expressionAttributeValues := [(":_Zero", .int 0), (":P_N", .int 1)]
          expressionNamesAndValues := [("#P.#N", "if_not_exists(N, :_Zero) + :N")] }) ∧
    GoMap.lookup (buildExpressionAttributeNamesAndValue none
        [("P", .map [("Fn:increase:N", .int 1)])] ⟨[], [], []⟩).2.expressionAttributeValues
      ":N" = none :=
  ⟨rfl, rfl⟩

/-- C16 on the map `P: (C: 1), A: 5`: the two visiting orders are orders of the same map, both
calls succeed, and the value and fragment tables differ. With `P` first, `A` is compiled as
`#P.#A` = `:P_A`; with `A` first it is compiled as `#A` = `:A`. -/
theorem visiting_order_changes_tables :
    List.Perm [("P", Value.map [("C", .int 1)]), ("A", Value.int 5)]
      [("A", Value.int 5), ("P", Value.map [("C", .int 1)])] ∧
    buildExpressionAttributeNamesAndValue none [("P", .map [("C", .int 1)]), ("A", .int 5)]
        ⟨[], [], []⟩ =
      (none,
        { expressionAttributeNames := [("#P", "P"), ("#C", "C"), ("#A", "A")]
          expressionAttributeValues := [(":P_C", .int 1), (":P_A", .int 5)]
          expressionNamesAndValues := [("#P.#C", ":P_C"), ("#P.#A", ":P_A")] }) ∧
    buildExpressionAttributeNamesAndValue none [("A", .int 5), ("P", .map [("C", .int 1)])]
        ⟨[], [], []⟩ =
      (none,
        { expressionAttributeNames := [("#A", "A"), ("#P", "P"), ("#C", "C")]
          expressionAttributeValues := [(":A", .int 5), (":P_C", .int 1)]
          expressionNamesAndValues := [("#A", ":A"), ("#P.#C", ":P_C")] }) :=
  ⟨List.Perm.swap _ _ _, rfl, rfl⟩

/-- C20 on the map `P: (C: 1), UpdatedTimestamp: now` with `P` visited first: the top-level
entry `UpdatedTimestamp` is compiled as `#P.#UpdatedTimestamp` = `:P_UpdatedTimestamp`; there
is no fragment `#UpdatedTimestamp` and no value `:UpdatedTimestamp`. -/
theorem top_level_entry_after_nested_map_is_qualified (now : Nat) :
    buildExpressionAttributeNamesAndValue none
        [("P", .map [("C", .int 1)]), ("UpdatedTimestamp", .time now)] ⟨[], [], []⟩ =
      (none,
        { expressionAttributeNames :=
            [("#P", "P"), ("#C", "C"), ("#UpdatedTimestamp", "UpdatedTimestamp")]
          expressionAttributeValues :=
            [(":P_C", .int 1), (":P_UpdatedTimestamp", .time now)]
          expressionNamesAndValues :=
            [("#P.#C", ":P_C"), ("#P.#UpdatedTimestamp", ":P_UpdatedTimestamp")] }) ∧
    GoMap.lookup (buildExpressionAttributeNamesAndValue none
        [("P", .map [("C", .int 1)]), ("UpdatedTimestamp", .time now)]
        ⟨[], [], []⟩).2.expressionNamesAndValues "#UpdatedTimestamp" = none ∧
    GoMap.lookup (buildExpressionAttributeNamesAndValue none
        [("P", .map [("C", .int 1)]), ("UpdatedTimestamp", .time now)]
        ⟨[], [], []⟩).2.expressionAttributeValues ":UpdatedTimestamp" = none :=
  ⟨rfl, rfl, rfl⟩

/-! ## Filter-expression builder: theorems -/

namespace strings

theorem Split_slash_pair (a b : String) (ha : '/' ∉ a.data) (hb : '/' ∉ b.data) :
    Split (a ++ "/" ++ b) '/' = [a, b] := by
  unfold Split
  have : (a ++ "/" ++ b).data = a.data ++ '/' :: b.data := by
    simp [String.data_append]
  rw [this, splitChars_append_sep, splitChars_of_not_mem ha, splitChars_of_not_mem hb]
  rfl

theorem Split_slash_two_segments (a b : String) :
    ∃ (x y : String) (rest : List String), Split (a ++ "/" ++ b) '/' = x :: y :: rest := by
  unfold Split
  have : (a ++ "/" ++ b).data = a.data ++ '/' :: b.data := by
    simp [String.data_append]
  rw [this, splitChars_append_sep]
  cases ha : splitChars '/' a.data with
  | nil => exact absurd ha (splitChars_ne_nil _ _)
  | cons x xs =>
    cases hb : splitChars '/' b.data with
    | nil => exact absurd hb (splitChars_ne_nil _ _)
    | cons y ys =>
      cases xs with
      | nil => exact ⟨_, _, _, rfl⟩
      | cons x' xs' => exact ⟨_, _, _, rfl⟩

theorem ReplaceAll_of_not_mem (s : String) (old new : Char) (h : old ∉ s.data) :
    ReplaceAll s old new = s := by
  unfold ReplaceAll
  apply String.ext
  simp only
  have : ∀ l : List Char, old ∉ l → l.map (fun c => if c = old then new else c) = l := by
    intro l hl
    induction l with
    | nil => rfl
    | cons c cs ih =>
      simp only [List.mem_cons, not_or] at hl
      have hc : ¬ c = old := fun e => hl.1 e.symm
      simp [hc, ih hl.2]
  exact this _ h

theorem foldl_append_left (sep : String) (p x : String) (cs : List String) :
    cs.foldl (fun a c => a ++ (sep ++ c)) (p ++ x) =
      p ++ cs.foldl (fun a c => a ++ (sep ++ c)) x := by
  induction cs generalizing x with
  | nil => rfl
  | cons c cs ih =>
    simp only [List.foldl_cons]
    rw [String.append_assoc, ih]

theorem Join_cons (c : String) (cs : List String) (sep : String) :
    Join (c :: cs) sep = cs.foldl (fun a x => a ++ (sep ++ x)) c := by
  induction cs generalizing c with
  | nil => exact String.ext (by simp [Join, joinChars])
  | cons d cs ih =>
    have h : Join (c :: d :: cs) sep = c ++ (sep ++ Join (d :: cs) sep) := by
      apply String.ext
      simp [Join, joinChars, String.data_append]
    rw [h, ih, List.foldl_cons, foldl_append_left, foldl_append_left]

end strings

theorem clauseToken_of_no_quote (f : String) (h : Char.ofNat 34 ∉ f.data) :
    clauseToken f = tableToken f := by
  unfold clauseToken tableToken
  apply strings.ReplaceAll_of_not_mem
  simp only [strings.RemoveAll, List.mem_filter, not_and]
  intro hm
  exact absurd hm h

theorem getWhere_some (item : GoMap Value) (f kind : String)
    (hf : GoMap.lookup item "field" = some (.str f))
    (ht : GoMap.lookup item "type" = some (.str kind)) :
    ∃ clause : String, getWhere item = some clause ∧ clauseOf (.map item) = clause := by
  have h : ∃ clause : String, getWhere item = some clause := by
    unfold getWhere
    simp only [hf, ht, Value.asString]
    split
    · exact ⟨_, rfl⟩
    · split
      · exact ⟨_, rfl⟩
      · split
        · exact ⟨_, rfl⟩
        · split <;> exact ⟨_, rfl⟩
  obtain ⟨clause, hc⟩ := h
  exact ⟨clause, hc, by simp [clauseOf, Value.asMap, hc]⟩

theorem filterValues_some (item : GoMap Value) (field kind : String)
    (values : GoMap AttributeValue)
    (ht : GoMap.lookup item "type" = some (.str kind))
    (hd : kind = "date" →
      ∃ a b : String, GoMap.lookup item "keyword" = some (.str (a ++ "/" ++ b))) :
    ∃ values' : GoMap AttributeValue, filterValues item field values = some values' := by
  unfold filterValues
  simp only [ht, Value.asString]
  split
  · rename_i hk
    obtain ⟨a, b, hkw⟩ := hd hk
    obtain ⟨x, y, rest, hs⟩ := strings.Split_slash_two_segments a b
    simp [hkw, hs]
  · split
    · split <;> exact ⟨_, rfl⟩
    · exact ⟨_, rfl⟩

/-- One well-formed predicate: the loop appends its clause (after ` AND ` unless it is the
first) and goes on with the next iteration. -/
theorem processQueryOptionFilterLoop_cons (name : String) (value : Value)
    (rest : List (String × Value)) (i : Nat) (expr : String) (values : GoMap AttributeValue)
    (names : GoMap String)
    (hwf : ∃ (item : GoMap Value) (f kind : String), value = .map item ∧
      GoMap.lookup item "field" = some (.str f) ∧
      GoMap.lookup item "type" = some (.str kind) ∧
      (kind = "date" →
        ∃ a b : String, GoMap.lookup item "keyword" = some (.str (a ++ "/" ++ b)))) :
    ∃ (values' : GoMap AttributeValue) (names' : GoMap String),
      processQueryOptionFilterLoop ((name, value) :: rest) i expr values names =
        processQueryOptionFilterLoop rest (i + 1)
          (if i = 0 then expr ++ clauseOf value else expr ++ (" AND " ++ clauseOf value))
          values' names' := by
  obtain ⟨item, f, kind, rfl, hf, ht, hd⟩ := hwf
  obtain ⟨clause, hg, hc⟩ := getWhere_some item f kind hf ht
  obtain ⟨values', hv⟩ := filterValues_some item (strings.RemoveAll f '.') kind values ht hd
  refine ⟨values', GoMap.assign names ("#" ++ strings.RemoveAll f '.') f, ?_⟩
  rw [processQueryOptionFilterLoop]
  simp only [Value.asMap, hf, Value.asString, hg, hv, hc]

theorem processQueryOptionFilterLoop_later (filter : List (String × Value))
    (hwf : ∀ e ∈ filter, ∃ (item : GoMap Value) (f kind : String), e.2 = .map item ∧
      GoMap.lookup item "field" = some (.str f) ∧
      GoMap.lookup item "type" = some (.str kind) ∧
      (kind = "date" →
        ∃ a b : String, GoMap.lookup item "keyword" = some (.str (a ++ "/" ++ b)))) :
    ∀ (i : Nat) (expr : String) (values : GoMap AttributeValue) (names : GoMap String),
      i ≠ 0 →
      ∃ (values' : GoMap AttributeValue) (names' : GoMap String),
        processQueryOptionFilterLoop filter i expr values names =
          some (filter.foldl (fun a e => a ++ (" AND " ++ clauseOf e.2)) expr, values',
            names') := by
  induction filter with
  | nil =>
    intro i expr values names _
    exact ⟨values, names, rfl⟩
  | cons e rest ih =>
    intro i expr values names hi
    obtain ⟨name, value⟩ := e
    obtain ⟨v1, n1, h1⟩ := processQueryOptionFilterLoop_cons name value rest i expr values
      names (hwf (name, value) (by simp))
    obtain ⟨v2, n2, h2⟩ := ih (fun e he => hwf e (by simp [he])) (i + 1)
      (expr ++ (" AND " ++ clauseOf value)) v1 n1 (by omega)
    refine ⟨v2, n2, ?_⟩
    rw [h1, if_neg hi, h2]
    rfl

/-- C12, as stated, fails on the field `a"b` with kind `exist`: the clause is written with the
token `a'b` (double quote replaced by a single quote), not with the dot-stripped field. -/
theorem exist_clause_replaces_quotes :
    processQueryOptionFilter [("0", .map [("field", .str "a\"b"), ("type", .str "exist")])]
        [] [] = some ("attribute_exists(#a'b)", [], [("#a\"b", "a\"b")]) ∧
    ("attribute_exists(#a'b)" : String) ≠
      "attribute_exists(#" ++ strings.RemoveAll "a\"b" '.' ++ ")" := by
  refine ⟨rfl, ?_⟩
  decide

/-- C12 amended: for a single predicate on the field `f`, kind `exist` leaves the value table
as it is and yields `attribute_exists(#t)`, where `t` is `f` with the dots removed and every
double quote replaced by a single quote; for a field without double quotes `t` is `f` with the
dots removed, and then kind `date` with the literal `<start>/<stop>` (neither containing `/`)
adds exactly the two value placeholders `:tStart` bound to `<start>` and `:tEnd` bound to
`<stop>`, registers the name `#t -> f`, and yields `#t BETWEEN :tStart AND :tEnd`. -/
theorem exist_and_date_predicates (name : String) (item : GoMap Value) (f : String)
    (values : GoMap AttributeValue) (names : GoMap String)
    (hf : GoMap.lookup item "field" = some (.str f)) :
    (GoMap.lookup item "type" = some (.str "exist") →
      ∃ names' : GoMap String,
        processQueryOptionFilter [(name, .map item)] values names =
          some ("attribute_exists(#" ++ clauseToken f ++ ")", values, names')) ∧
    (Char.ofNat 34 ∉ f.data → clauseToken f = strings.RemoveAll f '.') ∧
    (∀ start stop : String, Char.ofNat 34 ∉ f.data →
      GoMap.lookup item "type" = some (.str "date") →
      GoMap.lookup item "keyword" = some (.str (start ++ "/" ++ stop)) →
      '/' ∉ start.data → '/' ∉ stop.data →
      processQueryOptionFilter [(name, .map item)] values names =
        some ("#" ++ strings.RemoveAll f '.' ++ " BETWEEN :" ++ strings.RemoveAll f '.' ++
            "Start AND :" ++ strings.RemoveAll f '.' ++ "End",
          GoMap.assign (GoMap.assign values (":" ++ strings.RemoveAll f '.' ++ "Start")
            (.S start)) (":" ++ strings.RemoveAll f '.' ++ "End") (.S stop),
          GoMap.assign names ("#" ++ strings.RemoveAll f '.') f)) := by
  refine ⟨?_, clauseToken_of_no_quote f, ?_⟩
  · intro ht
    refine ⟨GoMap.assign names ("#" ++ strings.RemoveAll f '.') f, ?_⟩
    simp [processQueryOptionFilter, processQueryOptionFilterLoop, Value.asMap, hf, ht,
      Value.asString, getWhere, filterValues, clauseToken]
  · intro start stop hq ht hk hs1 hs2
    have htok : strings.ReplaceAll (strings.RemoveAll f '.') (Char.ofNat 34) (Char.ofNat 39) =
        strings.RemoveAll f '.' := clauseToken_of_no_quote f hq
    simp only [processQueryOptionFilter, processQueryOptionFilterLoop, Value.asMap, hf, ht,
      Value.asString, getWhere, filterValues, hk, strings.Split_slash_pair start stop hs1 hs2,
      htok]
    simp
    exact String.ext (by simp [String.data_append])

/-- C12 amended at the spec's example: the date range `2024-01-01/2024-01-31` on the field
`created.at`, and kind `exist` on the same field. -/
theorem exist_and_date_predicates_witness :
    processQueryOptionFilter
        [("0", .map [("field", .str "created.at"), ("type", .str "date"),
          ("keyword", .str "2024-01-01/2024-01-31")])] [] [] =
      some ("#createdat BETWEEN :createdatStart AND :createdatEnd",
        [(":createdatStart", .S "2024-01-01"), (":createdatEnd", .S "2024-01-31")],
        [("#createdat", "created.at")]) ∧
    ∃ names' : GoMap String,
      processQueryOptionFilter [("0", .map [("field", .str "created.at"),
          ("type", .str "exist")])] [] [] =
        some ("attribute_exists(#createdat)", [], names') :=
  ⟨(exist_and_date_predicates "0" [("field", .str "created.at"), ("type", .str "date"),
      ("keyword", .str "2024-01-01/2024-01-31")] "created.at" [] [] rfl).2.2
      "2024-01-01" "2024-01-31" (by decide) rfl rfl (by decide) (by decide),
    (exist_and_date_predicates "0" [("field", .str "created.at"), ("type", .str "exist")]
      "created.at" [] [] rfl).1 rfl⟩

/-- C13, as stated, fails on a `keyword` predicate on the field `title`: the clause is
`contains (#title, :title)`, with a blank after `contains`. -/
theorem keyword_clause_has_blank :
    processQueryOptionFilter
        [("0", .map [("field", .str "title"), ("type", .str "keyword"),
          ("keyword", .str "go")])] [] [] =
      some ("contains (#title, :title)", [(":title", .S "go")], [("#title", "title")]) ∧
    ("contains (#title, :title)" : String) ≠ "contains(#title, :title)" := by
  refine ⟨rfl, ?_⟩
  decide

/-- C13 amended: for every ordered list of well-formed predicates (each a map with a string
`field` and a string `type`, a `date` one with a keyword `<a>/<b>`), `processQueryOptionFilter`
returns the clauses of the predicates joined with ` AND ` in iteration order; a `keyword`
predicate compiles to `contains (#t, :t)` (with a blank after `contains`) and a `const`
predicate to `#t = :t`, where `t` is the field with its dots removed and its double quotes
replaced by single quotes. -/
theorem filter_clauses_joined_with_and (filter : List (String × Value))
    (values : GoMap AttributeValue) (names : GoMap String)
    (hwf : ∀ e ∈ filter, ∃ (item : GoMap Value) (f kind : String), e.2 = .map item ∧
      GoMap.lookup item "field" = some (.str f) ∧
      GoMap.lookup item "type" = some (.str kind) ∧
      (kind = "date" →
        ∃ a b : String, GoMap.lookup item "keyword" = some (.str (a ++ "/" ++ b)))) :
    (∃ (values' : GoMap AttributeValue) (names' : GoMap String),
      processQueryOptionFilter filter values names =
        some (strings.Join (filter.map (fun e => clauseOf e.2)) " AND ", values', names')) ∧
    (∀ (item : GoMap Value) (f : String), GoMap.lookup item "field" = some (.str f) →
      GoMap.lookup item "type" = some (.str "keyword") →
      clauseOf (.map item) = "contains (#" ++ clauseToken f ++ ", :" ++ clauseToken f ++ ")") ∧
    (∀ (item : GoMap Value) (f : String), GoMap.lookup item "field" = some (.str f) →
      GoMap.lookup item "type" = some (.str "const") →
      clauseOf (.map item) = "#" ++ clauseToken f ++ " = :" ++ clauseToken f) := by
  refine ⟨?_, ?_, ?_⟩
  · cases filter with
    | nil => exact ⟨values, names, rfl⟩
    | cons e rest =>
      obtain ⟨name, value⟩ := e
      obtain ⟨v1, n1, h1⟩ := processQueryOptionFilterLoop_cons name value rest 0 "" values
        names (hwf (name, value) (by simp))
      obtain ⟨v2, n2, h2⟩ := processQueryOptionFilterLoop_later rest
        (fun e he => hwf e (by simp [he])) 1 ("" ++ clauseOf value) v1 n1 (by omega)
      refine ⟨v2, n2, ?_⟩
      unfold processQueryOptionFilter
      rw [h1, if_pos rfl, h2, List.map_cons, strings.Join_cons, List.foldl_map]
      have : ("" : String) ++ clauseOf value = clauseOf value :=
        String.ext (by simp [String.data_append])
      rw [this]
  · intro item f hf ht
    simp [clauseOf, Value.asMap, getWhere, hf, ht, Value.asString, clauseToken]
  · intro item f hf ht
    simp [clauseOf, Value.asMap, getWhere, hf, ht, Value.asString, clauseToken]

/-- C13 amended on a list of three predicates and on a single one. -/
theorem filter_clauses_joined_with_and_witness :
    (∃ (values' : GoMap AttributeValue) (names' : GoMap String),
      processQueryOptionFilter
          [("0", .map [("field", .str "title"), ("type", .str "keyword"),
            ("keyword", .str "go")]),
            ("1", .map [("field", .str "kind"), ("type", .str "const"),
              ("keyword", .str "book")]),
            ("2", .map [("field", .str "isbn"), ("type", .str "exist")])] [] [] =
        some ("contains (#title, :title) AND #kind = :kind AND attribute_exists(#isbn)",
          values', names')) ∧
    (∃ (values' : GoMap AttributeValue) (names' : GoMap String),
      processQueryOptionFilter
          [("0", .map [("field", .str "kind"), ("type", .str "const"),
            ("keyword", .str "book")])] [] [] =
        some ("#kind = :kind", values', names')) :=
  ⟨(filter_clauses_joined_with_and
      [("0", .map [("field", .str "title"), ("type", .str "keyword"), ("keyword", .str "go")]),
        ("1", .map [("field", .str "kind"), ("type", .str "const"),
          ("keyword", .str "book")]),
        ("2", .map [("field", .str "isbn"), ("type", .str "exist")])] [] []
      (by
        intro e he
        simp only [List.mem_cons, List.mem_singleton, List.not_mem_nil, or_false] at he
        rcases he with rfl | rfl | rfl
        · exact ⟨_, "title", "keyword", rfl, rfl, rfl, fun h => absurd h (by decide)⟩
        · exact ⟨_, "kind", "const", rfl, rfl, rfl, fun h => absurd h (by decide)⟩
        · exact ⟨_, "isbn", "exist", rfl, rfl, rfl, fun h => absurd h (by decide)⟩)).1,
    (filter_clauses_joined_with_and
      [("0", .map [("field", .str "kind"), ("type", .str "const"),
        ("keyword", .str "book")])] [] []
      (by
        intro e he
        simp only [List.mem_singleton] at he
        subst he
        exact ⟨_, "kind", "const", rfl, rfl, rfl, fun h => absurd h (by decide)⟩)).1⟩

/-- C14 on the predicate `const` on the field `a"b` and on the predicate `const` on `age` with
the number 5: in the first the expression names `#a'b` and `:a'b` while the tables hold the keys
`#a"b` and `:a"b`; in the second the expression names `:age` and the value table is empty. -/
theorem filter_tokens_without_table_entry :
    processQueryOptionFilter
        [("0", .map [("field", .str "a\"b"), ("type", .str "const"), ("keyword", .str "x")])]
        [] [] =
      some ("#a'b = :a'b", [(":a\"b", .S "x")], [("#a\"b", "a\"b")]) ∧
    GoMap.lookup [("#a\"b", "a\"b")] "#a'b" = none ∧
    GoMap.lookup [(":a\"b", AttributeValue.S "x")] ":a'b" = none ∧
    processQueryOptionFilter
        [("0", .map [("field", .str "age"), ("type", .str "const"), ("keyword", .int 5)])]
        [] [] =
      some ("#age = :age", [], [("#age", "age")]) :=
  ⟨rfl, rfl, rfl, rfl⟩

/-! ## Point lookup and update: theorems -/

/-- C17: for a key without index selector, `GetItem` returns the item-not-found error exactly
when the key is encoded and the store's get reports no error and no item, and it returns the
item when the store's get finds one; for a key with an index selector (and a partition value),
`GetItem` returns the item-not-found error exactly when the index query reports no error and
zero rows, and it returns the first row when the query has rows. -/
theorem get_item_not_found_iff (c : PointCollaborators) (tableName : String)
    (pk sk op : Option String) (pkv indexName : String) :
    (GetItem c tableName ⟨pk, sk, none, op⟩ = .failed (.itemNotFound ⟨pk, sk, none, op⟩) ↔
      ∃ av : GoMap AttributeValue, c.MarshalMap ⟨pk, sk, none, op⟩ = .ok av ∧
        c.GetItem ⟨av, tableName⟩ = .ok ⟨none⟩) ∧
    (∀ (av : GoMap AttributeValue) (item : Item), c.MarshalMap ⟨pk, sk, none, op⟩ = .ok av →
      c.GetItem ⟨av, tableName⟩ = .ok ⟨some item⟩ →
      GetItem c tableName ⟨pk, sk, none, op⟩ = .found item) ∧
    (GetItem c tableName ⟨some pkv, sk, some indexName, op⟩ =
        .failed (.itemNotFound ⟨some pkv, sk, some indexName, op⟩) ↔
      ∃ lastKey : Option (GoMap AttributeValue),
        c.Query (gsiQueryInput tableName pkv indexName sk) = .ok ⟨[], lastKey⟩) ∧
    (∀ (item : Item) (more : List Item) (lastKey : Option (GoMap AttributeValue)),
      c.Query (gsiQueryInput tableName pkv indexName sk) = .ok ⟨item :: more, lastKey⟩ →
      GetItem c tableName ⟨some pkv, sk, some indexName, op⟩ = .found item) := by
  refine ⟨⟨?_, ?_⟩, ?_, ⟨?_, ?_⟩, ?_⟩
  · intro h
    simp only [GetItem] at h
    cases hm : c.MarshalMap ⟨pk, sk, none, op⟩ with
    | error err => rw [hm] at h; cases h
    | ok av =>
      rw [hm] at h
      refine ⟨av, rfl, ?_⟩
      cases hg : c.GetItem ⟨av, tableName⟩ with
      | error err => simp only [hg] at h; cases h
      | ok output =>
        simp only [hg] at h
        obtain ⟨item⟩ := output
        cases item with
        | none => rfl
        | some item => cases h
  · rintro ⟨av, hm, hg⟩
    simp [GetItem, hm, hg]
  · intro av item hm hg
    simp [GetItem, hm, hg]
  · intro h
    simp only [GetItem, getItemViaGsi] at h
    cases hq : c.Query (gsiQueryInput tableName pkv indexName sk) with
    | error err => simp only [hq] at h; cases h
    | ok output =>
      simp only [hq] at h
      obtain ⟨items, lastKey⟩ := output
      cases items with
      | nil => exact ⟨lastKey, rfl⟩
      | cons item more => cases h
  · rintro ⟨lastKey, hq⟩
    simp [GetItem, getItemViaGsi, hq]
  · intro item more lastKey hq
    simp [GetItem, getItemViaGsi, hq]

/-- C17 on a table with no rows and on a table with rows, through the primary key and through
the index `GSI1`. -/
theorem get_item_not_found_iff_witness :
    GetItem emptyTable "t" ⟨some "P", some "S", none, none⟩ =
        .failed (.itemNotFound ⟨some "P", some "S", none, none⟩) ∧
    GetItem emptyTable "t" ⟨some "P", some "S", some "GSI1", none⟩ =
        .failed (.itemNotFound ⟨some "P", some "S", some "GSI1", none⟩) ∧
    GetItem twoRowTable "t" ⟨some "P", some "S", none, none⟩ = .found [("PK", .S "a")] ∧
    GetItem twoRowTable "t" ⟨some "P", some "S", some "GSI1", none⟩ =
        .found [("PK", .S "a")] :=
  ⟨(get_item_not_found_iff emptyTable "t" (some "P") (some "S") none "P" "GSI1").1.2
      ⟨[], rfl, rfl⟩,
    (get_item_not_found_iff emptyTable "t" (some "P") (some "S") none "P" "GSI1").2.2.1.2
      ⟨none, rfl⟩,
    (get_item_not_found_iff twoRowTable "t" (some "P") (some "S") none "P" "GSI1").2.1
      [] [("PK", .S "a")] rfl rfl,
    (get_item_not_found_iff twoRowTable "t" (some "P") (some "S") none "P" "GSI1").2.2.2
      [("PK", .S "a")] [[("PK", .S "b")]] none rfl⟩

theorem GoMap.mem_assign {V : Type} (m : GoMap V) (k : String) (v : V)
    (hnd : (GoMap.keys m).Nodup) (k' : String) (v' : V) :
    (k', v') ∈ GoMap.assign m k v ↔ (k' = k ∧ v' = v) ∨ (k' ≠ k ∧ (k', v') ∈ m) := by
  induction m with
  | nil =>
    simp only [GoMap.assign, List.mem_singleton, Prod.mk.injEq, List.not_mem_nil, and_false,
      or_false]
  | cons e rest ih =>
    obtain ⟨k0, v0⟩ := e
    simp only [GoMap.keys, List.map_cons, List.nodup_cons] at hnd
    by_cases h0 : k0 = k
    · subst h0
      simp only [GoMap.assign, if_true, List.mem_cons, Prod.mk.injEq]
      constructor
      · rintro (⟨h1, h2⟩ | h)
        · exact Or.inl ⟨h1, h2⟩
        · refine Or.inr ⟨?_, Or.inr h⟩
          intro e
          apply hnd.1
          rw [← e]
          exact List.mem_map_of_mem Prod.fst h
      · rintro (⟨h1, h2⟩ | ⟨h1, h2 | h2⟩)
        · exact Or.inl ⟨h1, h2⟩
        · exact absurd h2.1 h1
        · exact Or.inr h2
    · simp only [GoMap.assign, h0, if_false, List.mem_cons, Prod.mk.injEq]
      rw [ih hnd.2]
      constructor
      · rintro (⟨h1, h2⟩ | h | ⟨h1, h2⟩)
        · refine Or.inr ⟨?_, Or.inl ⟨h1, h2⟩⟩
          rw [h1]
          exact h0
        · exact Or.inl h
        · exact Or.inr ⟨h1, Or.inr h2⟩
      · rintro (h | ⟨h1, h2 | h2⟩)
        · exact Or.inr (Or.inl h)
        · exact Or.inl h2
        · exact Or.inr (Or.inr ⟨h1, h2⟩)

/-- A flat field map (plain keys, pairwise distinct, no nested map) compiles at top level
without error; afterwards every entry `k` is bound under `:k` to its value, and the value
tokens of other keys are as they were. -/
theorem build_flat (flat : List (String × Value))
    (hplain : ∀ e ∈ flat, ∀ r : String, e.1 ≠ "Fn:" ++ r)
    (hval : ∀ e ∈ flat, e.2.isMap = false) (hnd : (GoMap.keys flat).Nodup) :
    ∀ t : Tables, ∃ t' : Tables,
      buildExpressionAttributeNamesAndValue none flat t = (none, t') ∧
      (∀ e ∈ flat, GoMap.lookup t'.expressionAttributeValues (":" ++ e.1) = some e.2) ∧
      (∀ token : String, (∀ e ∈ flat, token ≠ ":" ++ e.1) →
        GoMap.lookup t'.expressionAttributeValues token =
          GoMap.lookup t.expressionAttributeValues token) := by
  induction flat with
  | nil =>
    intro t
    exact ⟨t, by rw [buildExpressionAttributeNamesAndValue], by simp, fun _ _ => rfl⟩
  | cons e rest ih =>
    intro t
    obtain ⟨k, v⟩ := e
    simp only [GoMap.keys, List.map_cons, List.nodup_cons] at hnd
    obtain ⟨t', hrun, hin, hout⟩ := ih (fun e he => hplain e (by simp [he]))
      (fun e he => hval e (by simp [he])) hnd.2
      { expressionAttributeNames := GoMap.assign t.expressionAttributeNames ("#" ++ k) k
        expressionAttributeValues := GoMap.assign t.expressionAttributeValues (":" ++ k) v
        expressionNamesAndValues :=
          GoMap.assign t.expressionNamesAndValues ("#" ++ k) (":" ++ k) }
    have hkrest : ∀ e ∈ rest, (":" ++ k : String) ≠ ":" ++ e.1 := by
      intro e he h
      apply hnd.1
      rw [append_left_injective _ h]
      exact List.mem_map_of_mem Prod.fst he
    refine ⟨t', ?_, ?_, ?_⟩
    · rw [build_cons_plain k v rest t (hplain (k, v) (by simp)) (hval (k, v) (by simp))]
      exact hrun
    · intro e he
      rcases List.mem_cons.1 he with h | h
      · subst h
        rw [hout _ hkrest]
        exact GoMap.lookup_assign_self _ _ _
      · exact hin e h
    · intro token htoken
      rw [hout token (fun e he => htoken e (by simp [he]))]
      exact GoMap.lookup_assign_of_ne _ _ _ _ (htoken (k, v) (by simp))

/-- C18: whenever the key is encoded and the caller's field map `m` is a map (not nil),
`UpdateItem` runs the builder, from empty tables, on a field map `compiled` that is, up to the
visiting order, `m` with `UpdatedTimestamp` set to the time of the call, and what it returns
and sends is what lines 432-456 make of the builder's result on that map. `compiled` binds
`UpdatedTimestamp` to that time and to nothing else, whatever `m` bound it to, and its other
entries are exactly those of `m`. When `m` is flat (plain keys, no nested map) the builder
succeeds on it and the value table it hands to the encoder binds `:UpdatedTimestamp` to the
time of the call and `:k` to the caller's value for every other entry `k`. -/
theorem update_item_injects_timestamp (c : UpdateCollaborators) (tableName : String)
    (key : Key) (m : GoMap Value) (now : Nat) (visit : GoMap Value → GoMap Value)
    (visitFragments : GoMap String → GoMap String) (keyAv : GoMap AttributeValue)
    (hk : c.MarshalKey key = .ok keyAv) (hv : ∀ x : GoMap Value, (visit x).Perm x)
    (hnd : (GoMap.keys m).Nodup) :
    ∃ compiled : GoMap Value,
      (UpdateItem c tableName key (some m) now visit visitFragments).compiled = some compiled ∧
      compiled.Perm (GoMap.assign m "UpdatedTimestamp" (Value.time now)) ∧
      ("UpdatedTimestamp", Value.time now) ∈ compiled ∧
      (∀ v : Value, ("UpdatedTimestamp", v) ∈ compiled → v = Value.time now) ∧
      (∀ (k : String) (v : Value), k ≠ "UpdatedTimestamp" →
        ((k, v) ∈ compiled ↔ (k, v) ∈ m)) ∧
      UpdateItem c tableName key (some m) now visit visitFragments =
        updateAfterBuild c tableName keyAv visitFragments compiled
          (buildExpressionAttributeNamesAndValue none compiled ⟨[], [], []⟩) ∧
      ((∀ e ∈ m, (∀ r : String, e.1 ≠ "Fn:" ++ r) ∧ e.2.isMap = false) →
        ∃ t : Tables,
          buildExpressionAttributeNamesAndValue none compiled ⟨[], [], []⟩ = (none, t) ∧
          GoMap.lookup t.expressionAttributeValues ":UpdatedTimestamp" =
            some (Value.time now) ∧
          (∀ (k : String) (v : Value), (k, v) ∈ m → k ≠ "UpdatedTimestamp" →
            GoMap.lookup t.expressionAttributeValues (":" ++ k) = some v)) := by
  have hmem : ∀ (k : String) (v : Value),
      (k, v) ∈ visit (GoMap.assign m "UpdatedTimestamp" (Value.time now)) ↔
        (k = "UpdatedTimestamp" ∧ v = Value.time now) ∨
          (k ≠ "UpdatedTimestamp" ∧ (k, v) ∈ m) := by
    intro k v
    rw [(hv _).mem_iff, GoMap.mem_assign m _ _ hnd]
  refine ⟨visit (GoMap.assign m "UpdatedTimestamp" (Value.time now)), ?_, hv _, ?_, ?_, ?_,
    ?_, ?_⟩
  · unfold UpdateItem
    simp only [hk]
    split
    · rfl
    · split <;> rfl
  · exact (hmem _ _).2 (Or.inl ⟨rfl, rfl⟩)
  · intro v h
    rcases (hmem _ _).1 h with ⟨_, h⟩ | ⟨h, _⟩
    · exact h
    · exact absurd rfl h
  · intro k v hne
    constructor
    · intro h
      rcases (hmem _ _).1 h with ⟨h, _⟩ | ⟨_, h⟩
      · exact absurd h hne
      · exact h
    · intro h
      exact (hmem _ _).2 (Or.inr ⟨hne, h⟩)
  · unfold UpdateItem updateAfterBuild
    simp only [hk]
  · intro hflat
    have hkeys : (GoMap.keys (visit (GoMap.assign m "UpdatedTimestamp"
        (Value.time now)))).Nodup :=
      (((hv _).map Prod.fst).nodup_iff).2 (GoMap.nodup_keys_assign m _ _ hnd)
    obtain ⟨t, hrun, hin, _⟩ := build_flat
      (visit (GoMap.assign m "UpdatedTimestamp" (Value.time now)))
      (by
        intro e he
        rcases (hmem e.1 e.2).1 he with ⟨h, _⟩ | ⟨_, h⟩
        · rw [h]
          exact plain_key "UpdatedTimestamp" (by decide)
        · exact (hflat e h).1)
      (by
        intro e he
        rcases (hmem e.1 e.2).1 he with ⟨_, h⟩ | ⟨_, h⟩
        · rw [h]
          rfl
        · exact (hflat e h).2)
      hkeys ⟨[], [], []⟩
    refine ⟨t, hrun, ?_, ?_⟩
    · exact hin ("UpdatedTimestamp", Value.time now) ((hmem _ _).2 (Or.inl ⟨rfl, rfl⟩))
    · intro k v hkv hne
      exact hin (k, v) ((hmem _ _).2 (Or.inr ⟨hne, hkv⟩))

/-- C18 on a caller map that already binds `UpdatedTimestamp` (to 1) next to the entry `A`,
at the time 42: the builder runs on the map with `UpdatedTimestamp` bound to 42, and the request
sent to the store carries `:UpdatedTimestamp` encoded from 42 and `:A` from the caller's 5. -/
theorem update_item_injects_timestamp_witness :
    (∃ compiled : GoMap Value,
      (UpdateItem encodingStore "t" ⟨some "P", some "S", none, none⟩
        (some [("UpdatedTimestamp", .int 1), ("A", .int 5)]) 42 id id).compiled =
          some compiled ∧
      compiled.Perm (GoMap.assign [("UpdatedTimestamp", .int 1), ("A", .int 5)]
        "UpdatedTimestamp" (Value.time 42)) ∧
      ("UpdatedTimestamp", Value.time 42) ∈ compiled ∧
      (∀ v : Value, ("UpdatedTimestamp", v) ∈ compiled → v = Value.time 42) ∧
      (∀ (k : String) (v : Value), k ≠ "UpdatedTimestamp" →
        ((k, v) ∈ compiled ↔ (k, v) ∈ [("UpdatedTimestamp", Value.int 1), ("A", .int 5)])) ∧
      UpdateItem encodingStore "t" ⟨some "P", some "S", none, none⟩
          (some [("UpdatedTimestamp", .int 1), ("A", .int 5)]) 42 id id =
        updateAfterBuild encodingStore "t" [] id compiled
          (buildExpressionAttributeNamesAndValue none compiled ⟨[], [], []⟩) ∧
      ((∀ e ∈ [("UpdatedTimestamp", Value.int 1), ("A", Value.int 5)],
          (∀ r : String, e.1 ≠ "Fn:" ++ r) ∧ e.2.isMap = false) →
        ∃ t : Tables,
          buildExpressionAttributeNamesAndValue none compiled ⟨[], [], []⟩ = (none, t) ∧
          GoMap.lookup t.expressionAttributeValues ":UpdatedTimestamp" =
            some (Value.time 42) ∧
          (∀ (k : String) (v : Value),
            (k, v) ∈ [("UpdatedTimestamp", Value.int 1), ("A", Value.int 5)] →
            k ≠ "UpdatedTimestamp" →
            GoMap.lookup t.expressionAttributeValues (":" ++ k) = some v))) ∧
    (UpdateItem encodingStore "t" ⟨some "P", some "S", none, none⟩
        (some [("UpdatedTimestamp", .int 1), ("A", .int 5)]) 42 id id).request =
      some
        { Key := []
          TableName := "t"
          ExpressionAttributeNames := [("#UpdatedTimestamp", "UpdatedTimestamp"), ("#A", "A")]
          ExpressionAttributeValues := [(":UpdatedTimestamp", .S "0042"), (":A", .S "0005")]
          UpdateExpression := "set #UpdatedTimestamp=:UpdatedTimestamp, #A=:A"
          ReturnValues := "UPDATED_NEW" } :=
  ⟨update_item_injects_timestamp encodingStore "t" ⟨some "P", some "S", none, none⟩
      [("UpdatedTimestamp", .int 1), ("A", .int 5)] 42 id id [] rfl
      (fun _ => List.Perm.refl _) (by decide),
    rfl⟩

/-! ## The two operator switches, and the sort-key values: theorems -/

/-- C21: the first switch of `GetItemList` (value placeholders) rejects an operator exactly when
it is outside `=`, `<=`, `<`, `>=`, `>`, `between`, `begins_with`, and the second switch
(comparison text) accepts an operator exactly when it is inside that set; so whenever the first
switch runs through, the second one returns a clause, which is not empty, and every error the
key-condition code returns comes from the first switch: the key has a sort-key value whose
operator in force is outside the set. -/
theorem operator_switches_agree (sk sortKeyType indexName : String)
    (values : GoMap AttributeValue) (key : Key) :
    ((∃ (err : String) (v : GoMap AttributeValue),
        sortKeyValues sk sortKeyType values = .error err v) ↔
      sortKeyType ∉ ["=", "<=", "<", ">=", ">", "between", "begins_with"]) ∧
    ((∃ clause : String, sortKeyConditionExpression indexName sortKeyType = .ok clause) ↔
      sortKeyType ∈ ["=", "<=", "<", ">=", ">", "between", "begins_with"]) ∧
    (∀ v : GoMap AttributeValue, sortKeyValues sk sortKeyType values = .ok v →
      ∃ clause : String,
        sortKeyConditionExpression indexName sortKeyType = .ok clause ∧ clause ≠ "") ∧
    (∀ (err : String) (kc : KeyCondition), keyCondition key = .error err kc →
      ∃ s : String, key.SK = some s ∧
        inferSortKeyType s key.SortKeyType ∉
          ["=", "<=", "<", ">=", ">", "between", "begins_with"] ∧
        err = "not supported sort key type (" ++ inferSortKeyType s key.SortKeyType ++ ")") := by
  have hfirst : ∀ (s t : String) (vs : GoMap AttributeValue),
      t ∈ ["=", "<=", "<", ">=", ">", "between", "begins_with"] →
      ∀ (err : String) (v : GoMap AttributeValue), sortKeyValues s t vs ≠ .error err v := by
    intro s t vs ht err v h
    simp only [List.mem_cons, List.mem_singleton, List.not_mem_nil, or_false] at ht
    unfold sortKeyValues at h
    simp only [KeySortKeyTypeEqualTo, KeySortKeyTypeLessThanOrEqualTo, KeySortKeyTypeLessThan,
      KeySortKeyTypeGreaterThanOrEqualTo, KeySortKeyTypeGreaterThan, KeySortKeyTypeBeginsWith,
      KeySortKeyTypeBetween] at h
    split at h
    · cases h
    · split at h
      · split at h <;> cases h
      · rename_i h1 h2
        rcases ht with e | e | e | e | e | e | e <;> simp [e] at h1 h2
  have hfirst' : ∀ (s t : String) (vs : GoMap AttributeValue),
      t ∉ ["=", "<=", "<", ">=", ">", "between", "begins_with"] →
      sortKeyValues s t vs = .error ("not supported sort key type (" ++ t ++ ")") vs := by
    intro s t vs ht
    simp only [List.mem_cons, List.mem_singleton, List.not_mem_nil, or_false, not_or] at ht
    obtain ⟨h1, h2, h3, h4, h5, h6, h7⟩ := ht
    simp [sortKeyValues, KeySortKeyTypeEqualTo, KeySortKeyTypeLessThanOrEqualTo,
      KeySortKeyTypeLessThan, KeySortKeyTypeGreaterThanOrEqualTo, KeySortKeyTypeGreaterThan,
      KeySortKeyTypeBeginsWith, KeySortKeyTypeBetween, h1, h2, h3, h4, h5, h6, h7]
  have hsecond : ∀ (i t : String),
      t ∈ ["=", "<=", "<", ">=", ">", "between", "begins_with"] →
      ∃ clause : String, sortKeyConditionExpression i t = .ok clause ∧ clause ≠ "" := by
    intro i t ht
    have hne : ∀ a b : String, a.data ≠ [] → a ++ b ≠ "" := by
      intro a b ha h
      have := congrArg String.data h
      simp [String.data_append] at this
      exact ha this.1
    simp only [List.mem_cons, List.mem_singleton, List.not_mem_nil, or_false] at ht
    rcases ht with e | e | e | e | e | e | e <;> subst e <;>
      simp [sortKeyConditionExpression, KeySortKeyTypeEqualTo, KeySortKeyTypeLessThanOrEqualTo,
        KeySortKeyTypeLessThan, KeySortKeyTypeGreaterThanOrEqualTo, KeySortKeyTypeGreaterThan,
        KeySortKeyTypeBeginsWith, KeySortKeyTypeBetween] <;>
      (intro h; exact hne _ _ (by simp [String.data_append]) h)
  have hsecond' : ∀ (i t : String),
      t ∉ ["=", "<=", "<", ">=", ">", "between", "begins_with"] →
      sortKeyConditionExpression i t = .error ("not supported sort key type (" ++ t ++ ")") := by
    intro i t ht
    simp only [List.mem_cons, List.mem_singleton, List.not_mem_nil, or_false, not_or] at ht
    obtain ⟨h1, h2, h3, h4, h5, h6, h7⟩ := ht
    simp [sortKeyConditionExpression, KeySortKeyTypeEqualTo, KeySortKeyTypeLessThanOrEqualTo,
      KeySortKeyTypeLessThan, KeySortKeyTypeGreaterThanOrEqualTo, KeySortKeyTypeGreaterThan,
      KeySortKeyTypeBeginsWith, KeySortKeyTypeBetween, h1, h2, h3, h4, h5, h6, h7]
  refine ⟨⟨?_, ?_⟩, ⟨?_, ?_⟩, ?_, ?_⟩
  · rintro ⟨err, v, h⟩ ht
    exact hfirst sk sortKeyType values ht err v h
  · intro ht
    exact ⟨_, _, hfirst' sk sortKeyType values ht⟩
  · rintro ⟨clause, h⟩
    by_contra ht
    rw [hsecond' indexName sortKeyType ht] at h
    cases h
  · intro ht
    obtain ⟨clause, h, _⟩ := hsecond indexName sortKeyType ht
    exact ⟨clause, h⟩
  · intro v h
    by_cases ht : sortKeyType ∈ ["=", "<=", "<", ">=", ">", "between", "begins_with"]
    · exact hsecond indexName sortKeyType ht
    · rw [hfirst' sk sortKeyType values ht] at h
      cases h
  · intro err kc h
    obtain ⟨pk, skv, idx, op⟩ := key
    cases pk with
    | none => simp [keyCondition] at h
    | some pk =>
      cases idx with
      | none => simp [keyCondition] at h
      | some idx =>
        cases skv with
        | none => simp [keyCondition] at h
        | some s =>
          refine ⟨s, rfl, ?_⟩
          by_cases ht : inferSortKeyType s op ∈
              ["=", "<=", "<", ">=", ">", "between", "begins_with"]
          · exfalso
            obtain ⟨clause, hc, _⟩ := hsecond idx _ ht
            cases hv : sortKeyValues s (inferSortKeyType s op)
                (GoMap.assign [] ":gsipk" (AttributeValue.S pk)) with
            | error e0 v0 => exact hfirst _ _ _ ht e0 v0 hv
            | panic v0 => simp [keyCondition, hv] at h
            | ok v0 => simp [keyCondition, hv, hc] at h
          · refine ⟨ht, ?_⟩
            simp only [keyCondition, hfirst' _ _ _ ht] at h
            cases h
            rfl

/-- C21 at the operator `between` on the sort-key value `A#B#1/9`: the first switch runs
through and the second returns a clause that is not empty. -/
theorem operator_switches_agree_witness :
    ∃ clause : String,
      sortKeyConditionExpression "GSI1" "between" = .ok clause ∧ clause ≠ "" :=
  (operator_switches_agree "A#B#1/9" "between" "GSI1" [] ⟨none, none, none, none⟩).2.2.1
    [(":gsiskBegin", .S "A#B#1"), (":gsiskEnd", .S "A#B#9")] rfl

/-- C22 on a pointer to the number 5: without a display order `BuildValueSk` returns
`DISPLAYORDER#`, from which a key infers `begins_with`; with a pointer it returns
`DISPLAYORDER#` followed by the decimal text of the address the pointer holds, not `0005`, so
two pointers to the same number give different results, and the number pointed to is never
read. -/
theorem BuildValueSk_formats_the_pointer :
    BuildValueSk none = "DISPLAYORDER#" ∧
    inferSortKeyType (BuildValueSk none) none = KeySortKeyTypeBeginsWith ∧
    BuildValueSk (some ⟨824633802888, 5⟩) = "DISPLAYORDER#824633802888" ∧
    BuildValueSk (some ⟨824633802896, 5⟩) = "DISPLAYORDER#824633802896" ∧
    BuildValueSk (some ⟨824633802888, 5⟩) ≠ "DISPLAYORDER#0005" ∧
    ("DISPLAYORDER#" ++ Sprintf04d 5 : String) = "DISPLAYORDER#0005" ∧
    (∀ address n n' : Nat,
      BuildValueSk (some ⟨address, n⟩) = BuildValueSk (some ⟨address, n'⟩)) := by
  refine ⟨by decide, by decide, by decide, by decide, by decide, by decide, ?_⟩
  intro address n n'
  rfl

end DynamoClient
